import Mathlib

/-
Shallow embedding of the decision-tree induction core shared by the two
scripts `generate_results_table.py` (suffix `G` below) and `plot_id3_tree.py`
(suffix `P` below).

Modelling conventions:
* attribute names / indices, attribute values and class labels are all `ℕ`;
* a training example is a pair of a total attribute-value map and a label
  (the dataset invariant guarantees every example carries every attribute);
* Python `float` arithmetic is modelled by exact real arithmetic over `ℝ`,
  with `math.log2` as `Real.logb 2`, and numeric literals read as the exact
  decimals written in the source;
* Python dicts (`defaultdict`, `setdefault`, `Counter`) are modelled as
  association lists in first-encounter key order, which is the documented
  iteration order of CPython dicts and `Counter`;
* `Counter.most_common` is documented to order equal counts in
  first-encounter order, so the majority label is the first-encountered
  label of maximal count;
* a function that can raise (`majority_label` in plot_id3_tree.py on an
  empty set) is given the value `none` on the offending input; the leaf
  payload is `Option` for the same reason (`majority_label` in
  generate_results_table.py returns `None` on an empty example list).
-/

abbrev Attr : Type := ℕ
abbrev Value : Type := ℕ
abbrev Label : Type := ℕ

/-- A training example: total attribute-value map plus class label. -/
abbrev Example : Type := (Attr → Value) × Label

/-- Decision-tree nodes, the `TreeNode` class of generate_results_table.py and
the `Node` class of plot_id3_tree.py: a leaf carries a (possibly `None`)
class label, an inner node carries the split attribute and the
value-to-child map in first-encounter order of the training values.
(The display-only `attr_name` field of plot_id3_tree.py's `Node`, which
duplicates `attr_index` through the header list, is omitted.) -/
inductive DTree : Type
  | leaf (label : Option Label)
  | node (attr : Attr) (children : List (Value × DTree))

/-- One step of `collections.Counter` / of the `freq[k] = freq.get(k, 0) + 1`
loops: bump the count of `x`, keeping first-encounter key order. -/
def bump {α : Type} [DecidableEq α] (acc : List (α × ℕ)) (x : α) : List (α × ℕ) :=
  match acc with
  | [] => [(x, 1)]
  | (y, c) :: rest => if y = x then (y, c + 1) :: rest else (y, c) :: bump rest x

/-- `collections.Counter(l)` as an association list in first-encounter order. -/
def countValues {α : Type} [DecidableEq α] (l : List α) : List (α × ℕ) :=
  l.foldl bump []

/-- `counter.get(x, 0)`: the stored count of `x`, defaulting to `0`. -/
def getCount {α : Type} [DecidableEq α] (cvs : List (α × ℕ)) (x : α) : ℕ :=
  match cvs with
  | [] => 0
  | (y, c) :: rest => if y = x then c else getCount rest x

/-- First-encountered key of maximal count, the common behaviour of
`Counter(labels).most_common(1)[0][0]` (generate_results_table.py, stable
sort by descending count) and `max(freq.items(), key=...)[0]`
(plot_id3_tree.py, `max` keeps the first maximum); `none` on an empty
counter. -/
def firstMaxCount {α : Type} (cvs : List (α × ℕ)) : Option α :=
  (cvs.foldl (fun acc yc => if acc.2 < yc.2 then (some yc.1, yc.2) else acc)
    ((none : Option α), 0)).1

/-- Append `e` to the bucket keyed `v`, creating the bucket at the end if the
key is new: one step of `buckets[attrs[attr]].append(...)` on a
`defaultdict(list)` (generate_results_table.py) and of
`subsets.setdefault(value, []).append(ex)` (plot_id3_tree.py). -/
def upsert (acc : List (Value × List Example)) (v : Value) (e : Example) :
    List (Value × List Example) :=
  match acc with
  | [] => [(v, [e])]
  | (w, b) :: rest =>
      if w = v then (w, b ++ [e]) :: rest else (w, b) :: upsert rest v e

/-- `split_by_attr(examples, attr)`: group the examples by their value for
`attr`, buckets in first-encounter key order (identical in both scripts). -/
def split_by_attr (examples : List Example) (a : Attr) :
    List (Value × List Example) :=
  examples.foldl (fun acc e => upsert acc (e.1 a) e) []

/-- `entropy(labels)` of generate_results_table.py (lines 79-89). -/
noncomputable def entropyG (labels : List Label) : ℝ :=
  if labels = [] then 0
  else
    (countValues labels).foldl
      (fun h lc =>
        let p : ℝ := (lc.2 : ℝ) / (labels.length : ℝ)
        if 0 < p then h - p * Real.logb 2 p else h) 0

/-- `gini(labels)` of generate_results_table.py (lines 92-101). -/
noncomputable def giniG (labels : List Label) : ℝ :=
  if labels = [] then 0
  else
    (countValues labels).foldl
      (fun g lc =>
        let p : ℝ := (lc.2 : ℝ) / (labels.length : ℝ)
        g - p * p) 1

/-- `information_gain(examples, attr)` of generate_results_table.py
(lines 111-120). -/
noncomputable def information_gainG (examples : List Example) (a : Attr) : ℝ :=
  entropyG (examples.map Prod.snd) -
    ((split_by_attr examples a).foldl
      (fun cond p =>
        cond + ((p.2.length : ℝ) / (examples.length : ℝ)) *
          entropyG (p.2.map Prod.snd)) 0)

/-- `split_info(examples, attr)`: line-identical in the two scripts
(generate_results_table.py lines 123-131, plot_id3_tree.py lines 76-87). -/
noncomputable def split_info (examples : List Example) (a : Attr) : ℝ :=
  (split_by_attr examples a).foldl
    (fun si p =>
      let q : ℝ := (p.2.length : ℝ) / (examples.length : ℝ)
      if 0 < q then si - q * Real.logb 2 q else si) 0

/-- `gain_ratio(examples, attr)` of generate_results_table.py (lines 134-139):
the guard is `si == 0`. -/
noncomputable def gain_ratioG (examples : List Example) (a : Attr) : ℝ :=
  if split_info examples a = 0 then 0
  else information_gainG examples a / split_info examples a

/-- `gini_gain(examples, attr)` of generate_results_table.py (lines 142-151). -/
noncomputable def gini_gainG (examples : List Example) (a : Attr) : ℝ :=
  giniG (examples.map Prod.snd) -
    ((split_by_attr examples a).foldl
      (fun cond p =>
        cond + ((p.2.length : ℝ) / (examples.length : ℝ)) *
          giniG (p.2.map Prod.snd)) 0)

/-- `chi_square_score(examples, attr)` of generate_results_table.py
(lines 154-173): the running `chi2 +=` accumulation over
`buckets.values()` x `label_counts.items()` is written as a sum of sums. -/
noncomputable def chi_square_scoreG (examples : List Example) (a : Attr) : ℝ :=
  if (split_by_attr examples a).isEmpty then 0
  else
    ((split_by_attr examples a).map (fun p =>
      ((countValues (examples.map Prod.snd)).map (fun lc =>
        let expected : ℝ := (lc.2 : ℝ) * (p.2.length : ℝ) / (examples.length : ℝ)
        let observed : ℕ := getCount (countValues (p.2.map Prod.snd)) lc.1
        if 0 < expected then ((observed : ℝ) - expected) ^ 2 / expected
        else 0)).sum)).sum

/-- `entropy(examples)` of plot_id3_tree.py (lines 40-52): the `freq` dict
loop is `countValues` of the label column. -/
noncomputable def entropyP (examples : List Example) : ℝ :=
  if examples.isEmpty then 0
  else
    (countValues (examples.map Prod.snd)).foldl
      (fun h lc =>
        let p : ℝ := (lc.2 : ℝ) / (examples.length : ℝ)
        if 0 < p then h - p * Real.logb 2 p else h) 0

/-- `information_gain(examples, attr_index)` of plot_id3_tree.py
(lines 63-73); unlike the other script it guards the empty example list. -/
noncomputable def information_gainP (examples : List Example) (a : Attr) : ℝ :=
  if examples.isEmpty then 0
  else
    entropyP examples -
      ((split_by_attr examples a).foldl
        (fun cond p =>
          cond + ((p.2.length : ℝ) / (examples.length : ℝ)) * entropyP p.2) 0)

/-- `gain_ratio(examples, attr_index)` of plot_id3_tree.py (lines 90-95):
the guard is `si <= 1e-12`. -/
noncomputable def gain_ratioP (examples : List Example) (a : Attr) : ℝ :=
  if split_info examples a ≤ 1e-12 then 0
  else information_gainP examples a / split_info examples a

/-- `gini_impurity(examples)` of plot_id3_tree.py (lines 98-109). -/
noncomputable def gini_impurityP (examples : List Example) : ℝ :=
  if examples.isEmpty then 0
  else
    (countValues (examples.map Prod.snd)).foldl
      (fun g lc =>
        let p : ℝ := (lc.2 : ℝ) / (examples.length : ℝ)
        g - p * p) 1

/-- `gini_gain(examples, attr_index)` of plot_id3_tree.py (lines 112-125). -/
noncomputable def gini_gainP (examples : List Example) (a : Attr) : ℝ :=
  if examples.isEmpty then 0
  else
    gini_impurityP examples -
      ((split_by_attr examples a).foldl
        (fun cond p =>
          cond + ((p.2.length : ℝ) / (examples.length : ℝ)) *
            gini_impurityP p.2) 0)

/-- `chi_square_score(examples, attr_index)` of plot_id3_tree.py
(lines 128-170): the observed-count matrix `O[i][j]`, indexed by bucket and
by `sorted(set(labels))`, has entry `(p.2.map Prod.snd).count c` (the final
value of the `O[i][j] += 1` loop); row/column sums and the chi-square double
sum are written over the bucket list and the sorted class list directly,
eliding the `value_index`/`class_index` integer reindexing. -/
noncomputable def chi_square_scoreP (examples : List Example) (a : Attr) : ℝ :=
  if (split_by_attr examples a).isEmpty then 0
  else
    let classes : List Label :=
      List.insertionSort (fun x y => x ≤ y)
        ((countValues (examples.map Prod.snd)).map Prod.fst)
    let obs : List Example → Label → ℕ := fun subset c =>
      (subset.map Prod.snd).count c
    let rowSum : List Example → ℕ := fun subset => (classes.map (obs subset)).sum
    let colSum : Label → ℕ := fun c =>
      ((split_by_attr examples a).map (fun p => obs p.2 c)).sum
    let total : ℕ := ((split_by_attr examples a).map (fun p => rowSum p.2)).sum
    if total = 0 then 0
    else
      ((split_by_attr examples a).map (fun p =>
        (classes.map (fun c =>
          let expected : ℝ := (rowSum p.2 : ℝ) * (colSum c : ℝ) / (total : ℝ)
          if 0 < expected then ((obs p.2 c : ℝ) - expected) ^ 2 / expected
          else 0)).sum)).sum

/-- The four split criteria; the scripts dispatch on the strings
"id3" / "c45" / "cart" / "chaid", any other string raising `ValueError`
(fatal), which the closed enumeration makes unrepresentable. -/
inductive Algo : Type
  | id3
  | c45
  | cart
  | chaid
deriving DecidableEq

/-- The criterion dispatch of the scoring loop in `build_tree` of
generate_results_table.py (lines 196-206). -/
noncomputable def scoreG (algo : Algo) (examples : List Example) (a : Attr) : ℝ :=
  match algo with
  | .id3 => information_gainG examples a
  | .c45 => gain_ratioG examples a
  | .cart => gini_gainG examples a
  | .chaid => chi_square_scoreG examples a

/-- The criterion dispatch of `choose_best_attribute` in plot_id3_tree.py
(lines 199-209). -/
noncomputable def scoreP (algo : Algo) (examples : List Example) (a : Attr) : ℝ :=
  match algo with
  | .id3 => information_gainP examples a
  | .c45 => gain_ratioP examples a
  | .cart => gini_gainP examples a
  | .chaid => chi_square_scoreP examples a

/-- The shared selection loop of both scripts: starting from
`best_attr = None, best_score = -1.0`, replace the running best whenever a
strictly larger score appears (so the first-encountered attribute wins
exact ties). -/
noncomputable def bestPair (f : Attr → ℝ) (attrs : List Attr) : Option Attr × ℝ :=
  attrs.foldl (fun acc a => if acc.2 < f a then (some a, f a) else acc)
    ((none : Option Attr), -1)

/-- `majority_label(examples)` of generate_results_table.py (lines 178-182):
`None` on an empty list, else the first-encountered label of maximal count. -/
def majority_labelG (examples : List Example) : Option Label :=
  if examples.map Prod.snd = [] then none
  else firstMaxCount (countValues (examples.map Prod.snd))

/-- `majority_label(examples)` of plot_id3_tree.py (lines 173-177): the
first-encountered label of maximal count; on an empty list the source
raises `ValueError` from `max` of an empty sequence, modelled as `none`. -/
def majority_labelP (examples : List Example) : Option Label :=
  firstMaxCount (countValues (examples.map Prod.snd))

/-- `choose_best_attribute(examples, attr_names, available_attrs, algo)` of
plot_id3_tree.py (lines 191-218): the selection loop followed by the
near-zero guard `if best_attr is None or best_score <= 1e-9: return None`.
(The unused `attr_names` parameter is dropped.) -/
noncomputable def choose_best_attribute (examples : List Example)
    (attrs : List Attr) (algo : Algo) : Option Attr :=
  match (bestPair (scoreP algo examples) attrs).1 with
  | none => none
  | some b =>
      if (bestPair (scoreP algo examples) attrs).2 ≤ 1e-9 then none else some b

theorem bestPair_fst_mem_aux (f : Attr → ℝ) (l : List Attr)
    (acc : Option Attr × ℝ) (b : Attr)
    (h : (l.foldl (fun acc a => if acc.2 < f a then (some a, f a) else acc)
      acc).1 = some b) :
    acc.1 = some b ∨ b ∈ l := by
  induction l generalizing acc with
  | nil => exact Or.inl h
  | cons x xs ih =>
      simp only [List.foldl_cons] at h
      rcases ih _ h with h1 | h2
      · by_cases hx : acc.2 < f x
        · simp [hx] at h1
          exact Or.inr (by simp [h1])
        · simp [hx] at h1
          exact Or.inl h1
      · exact Or.inr (List.mem_cons_of_mem _ h2)

/-- The attribute selected by the shared loop is one of the available ones. -/
theorem bestPair_fst_mem (f : Attr → ℝ) (attrs : List Attr) (b : Attr)
    (h : (bestPair f attrs).1 = some b) : b ∈ attrs := by
  rcases bestPair_fst_mem_aux f attrs _ b h with h1 | h2
  · simp at h1
  · exact h2

/-- plot_id3_tree.py's chosen attribute is one of the available ones. -/
theorem choose_best_attribute_mem (examples : List Example) (attrs : List Attr)
    (algo : Algo) (b : Attr) (h : choose_best_attribute examples attrs algo = some b) :
    b ∈ attrs := by
  unfold choose_best_attribute at h
  rcases hb : (bestPair (scoreP algo examples) attrs).1 with _ | b'
  · simp [hb] at h
  · simp [hb] at h
    rcases h with ⟨-, h2⟩
    exact h2 ▸ bestPair_fst_mem _ _ _ hb

/-- Removing a present element strictly shrinks a list. -/
theorem length_filter_ne_lt (attrs : List Attr) (b : Attr) (h : b ∈ attrs) :
    (attrs.filter (fun a => a ≠ b)).length < attrs.length := by
  induction attrs with
  | nil => cases h
  | cons x xs ih =>
      by_cases hx : x = b
      · subst hx
        have h0 : List.filter (fun a => a ≠ x) (x :: xs) =
            List.filter (fun a => a ≠ x) xs := by
          simp [List.filter_cons]
        rw [h0, List.length_cons]
        exact Nat.lt_succ_of_le (List.length_filter_le _ _)
      · rcases List.mem_cons.1 h with h1 | h2
        · exact absurd h1.symm hx
        · simpa [List.filter_cons, hx] using Nat.succ_lt_succ (ih h2)

/-- `build_tree(examples, attr_names, algo)` of generate_results_table.py
(lines 185-226): pure-class leaf, attribute-exhaustion leaf, selection loop
(note: no near-zero threshold in this script - `best_attr` is `None` only if
no score beat the `-1.0` sentinel), then one child per observed bucket, the
branch for an empty bucket falling back to the current node's majority
label. -/
noncomputable def build_treeG (examples : List Example) (attrs : List Attr)
    (algo : Algo) : DTree :=
  if (countValues (examples.map Prod.snd)).length = 1 then
    .leaf (examples.map Prod.snd).head?
  else if attrs = [] then .leaf (majority_labelG examples)
  else
    match h : (bestPair (scoreG algo examples) attrs).1 with
    | none => .leaf (majority_labelG examples)
    | some b =>
        .node b ((split_by_attr examples b).map (fun p =>
          (p.1,
            if p.2.isEmpty then DTree.leaf (majority_labelG examples)
            else build_treeG p.2 (attrs.filter (fun a => a ≠ b)) algo)))
termination_by attrs.length
decreasing_by
  exact length_filter_ne_lt attrs b (bestPair_fst_mem _ _ _ h)

/-- `build_tree(examples, attr_names, available_attrs, algo)` of
plot_id3_tree.py (lines 221-255): pure-class leaf (the label being the sole
element of the label set, i.e. the sole key of its counter),
exhaustion/empty leaf, `choose_best_attribute` (which enforces the `1e-9`
threshold), then one child per observed bucket with the same empty-bucket
fallback. -/
noncomputable def build_treeP (examples : List Example) (attrs : List Attr)
    (algo : Algo) : DTree :=
  if (countValues (examples.map Prod.snd)).length = 1 then
    .leaf ((countValues (examples.map Prod.snd)).map Prod.fst).head?
  else if attrs = [] ∨ examples.isEmpty then .leaf (majority_labelP examples)
  else
    match h : choose_best_attribute examples attrs algo with
    | none => .leaf (majority_labelP examples)
    | some b =>
        .node b ((split_by_attr examples b).map (fun p =>
          (p.1,
            if p.2.isEmpty then DTree.leaf (majority_labelP examples)
            else build_treeP p.2 (attrs.filter (fun a => a ≠ b)) algo)))
termination_by attrs.length
decreasing_by
  exact length_filter_ne_lt attrs b (choose_best_attribute_mem _ _ _ _ h)

/-- `build_tree` of generate_results_table.py with the structurally
unreachable empty-bucket fallback branch removed: every child is the
recursive call on its bucket. -/
noncomputable def build_treeG_nofallback (examples : List Example)
    (attrs : List Attr) (algo : Algo) : DTree :=
  if (countValues (examples.map Prod.snd)).length = 1 then
    .leaf (examples.map Prod.snd).head?
  else if attrs = [] then .leaf (majority_labelG examples)
  else
    match h : (bestPair (scoreG algo examples) attrs).1 with
    | none => .leaf (majority_labelG examples)
    | some b =>
        .node b ((split_by_attr examples b).map (fun p =>
          (p.1, build_treeG_nofallback p.2 (attrs.filter (fun a => a ≠ b)) algo)))
termination_by attrs.length
decreasing_by
  exact length_filter_ne_lt attrs b (bestPair_fst_mem _ _ _ h)

/-- `build_tree` of plot_id3_tree.py with the structurally unreachable
empty-bucket fallback branch removed. -/
noncomputable def build_treeP_nofallback (examples : List Example)
    (attrs : List Attr) (algo : Algo) : DTree :=
  if (countValues (examples.map Prod.snd)).length = 1 then
    .leaf ((countValues (examples.map Prod.snd)).map Prod.fst).head?
  else if attrs = [] ∨ examples.isEmpty then .leaf (majority_labelP examples)
  else
    match h : choose_best_attribute examples attrs algo with
    | none => .leaf (majority_labelP examples)
    | some b =>
        .node b ((split_by_attr examples b).map (fun p =>
          (p.1, build_treeP_nofallback p.2 (attrs.filter (fun a => a ≠ b)) algo)))
termination_by attrs.length
decreasing_by
  exact length_filter_ne_lt attrs b (choose_best_attribute_mem _ _ _ _ h)

/-- The recursive side condition under which the two scripts' builders are
proved to coincide: at every node actually reached, either a termination
case applies, or (i) the two scripts assign equal criterion scores to every
available attribute and (ii) if the selection loop picks an attribute, its
score strictly exceeds the 1e-9 threshold (precisely where
generate_results_table.py, which lacks the threshold, would otherwise
split while plot_id3_tree.py returns a leaf). -/
noncomputable def okRec (examples : List Example) (attrs : List Attr)
    (algo : Algo) : Prop :=
  if (countValues (examples.map Prod.snd)).length = 1 then True
  else if attrs = [] then True
  else
    (∀ a ∈ attrs, scoreG algo examples a = scoreP algo examples a) ∧
      match h : (bestPair (scoreG algo examples) attrs).1 with
      | none => True
      | some b =>
          1e-9 < (bestPair (scoreG algo examples) attrs).2 ∧
            ∀ p ∈ split_by_attr examples b,
              okRec p.2 (attrs.filter (fun a => a ≠ b)) algo
termination_by attrs.length
decreasing_by
  exact length_filter_ne_lt attrs b (bestPair_fst_mem _ _ _ h)

/-- Association lookup in a children list, `val in node.children` followed by
`node.children[val]`. -/
def lookupV (cs : List (Value × DTree)) (v : Value) : Option DTree :=
  match cs with
  | [] => none
  | (w, t) :: rest => if w = v then some t else lookupV rest v

theorem lookupV_sizeOf (cs : List (Value × DTree)) (v : Value) (t : DTree)
    (h : lookupV cs v = some t) : sizeOf t < sizeOf cs := by
  induction cs with
  | nil => simp [lookupV] at h
  | cons p rest ih =>
      rcases p with ⟨w, c⟩
      by_cases hw : w = v
      · simp [lookupV, hw] at h
        subst h
        simp
        omega
      · simp [lookupV, hw] at h
        have := ih h
        simp
        omega

/-- `predict_one(node, attrs, default_label)` of generate_results_table.py
(lines 231-239): walk the tree; at a decision node look up the example's
value for the node's attribute (`attrs.get`, hence `Option`-valued) and
either descend or return the default immediately. -/
def predict_one (t : DTree) (attrs : Attr → Option Value)
    (default : Option Label) : Option Label :=
  match t with
  | .leaf l => l
  | .node a cs =>
      match attrs a with
      | none => default
      | some v =>
          match h : lookupV cs v with
          | none => default
          | some child => predict_one child attrs default
termination_by sizeOf t
decreasing_by
  have h1 := lookupV_sizeOf cs v child h
  simp
  omega

/-- `count_nodes(n)` of generate_results_table.py (lines 275-281): one per
node, leaves included (the `n is None` guard is unreachable since children
maps never store `None`). -/
def count_nodes (t : DTree) : ℕ :=
  match t with
  | .leaf _ => 1
  | .node _ cs => 1 + (cs.attach.map (fun p => count_nodes p.1.2)).sum
termination_by sizeOf t
decreasing_by
  have h1 := List.sizeOf_lt_of_mem p.2
  rcases p with ⟨⟨v, c⟩, hp⟩
  simp at h1 ⊢
  omega

/-- Maximum of a list of naturals (`0` for the empty list). -/
def natMax (l : List ℕ) : ℕ := l.foldr max 0

/-- Depth measure on trees: `0` at a leaf, one plus the deepest child at a
decision node.  This is the measure in which the spec bounds the recursion
depth of the builder. -/
def depthT (t : DTree) : ℕ :=
  match t with
  | .leaf _ => 0
  | .node _ cs => 1 + natMax (cs.attach.map (fun p => depthT p.1.2))
termination_by sizeOf t
decreasing_by
  have h1 := List.sizeOf_lt_of_mem p.2
  rcases p with ⟨⟨v, c⟩, hp⟩
  simp at h1 ⊢
  omega

/-- The per-example prediction pairs `(y_true, y_pred)` assembled by
`evaluate_algorithm` (generate_results_table.py lines 252-259), including
the `if pred is None: pred = default_label` substitution. -/
def predsG (tree : DTree) (default : Option Label)
    (test : List ((Attr → Option Value) × Label)) : List (Label × Option Label) :=
  test.map (fun e =>
    (e.2, match predict_one tree e.1 default with
          | none => default
          | some p => some p))

/-- `tp` of generate_results_table.py line 264. -/
def tpOf (y : List (Label × Option Label)) (positive : Label) : ℕ :=
  (y.filter (fun q => q.1 = positive ∧ q.2 = some positive)).length

/-- `fp` of generate_results_table.py line 265. -/
def fpOf (y : List (Label × Option Label)) (positive : Label) : ℕ :=
  (y.filter (fun q => q.1 ≠ positive ∧ q.2 = some positive)).length

/-- `fn` of generate_results_table.py line 266. -/
def fnOf (y : List (Label × Option Label)) (positive : Label) : ℕ :=
  (y.filter (fun q => q.1 = positive ∧ q.2 ≠ some positive)).length

/-- The F1 computation of generate_results_table.py lines 268-273, with the
explicit `tp == 0 and (fp > 0 or fn > 0)` zero rule guarding the divisions. -/
noncomputable def f1Of (y : List (Label × Option Label)) (positive : Label) : ℝ :=
  if tpOf y positive = 0 ∧ (0 < fpOf y positive ∨ 0 < fnOf y positive) then 0
  else
    let precision : ℝ :=
      if 0 < tpOf y positive + fpOf y positive then
        (tpOf y positive : ℝ) / ((tpOf y positive : ℝ) + (fpOf y positive : ℝ))
      else 0
    let recl : ℝ :=
      if 0 < tpOf y positive + fnOf y positive then
        (tpOf y positive : ℝ) / ((tpOf y positive : ℝ) + (fnOf y positive : ℝ))
      else 0
    if 0 < precision + recl then
      2 * precision * recl / (precision + recl)
    else 0

/-- `accuracy` of generate_results_table.py lines 261-262. -/
noncomputable def accuracyOf (y : List (Label × Option Label)) : ℝ :=
  if y = [] then 0
  else ((y.filter (fun q => q.2 = some q.1)).length : ℝ) / (y.length : ℝ)

/-- `evaluate_algorithm(train, test, attr_names, algo, positive_label)` of
generate_results_table.py (lines 242-284), returning
`(accuracy, f1, elapsed, nodes)`.  `time.perf_counter` is an external
clock: the span it measures around the `build_tree` call is the
uninterpreted parameter `elapsed`, which the source computes before the
empty-test check and returns in every case. -/
noncomputable def evaluate_algorithmG (train : List Example)
    (test : List ((Attr → Option Value) × Label)) (attrs : List Attr)
    (algo : Algo) (positive : Label) (elapsed : ℝ) : ℝ × ℝ × ℝ × ℕ :=
  let tree := build_treeG train attrs algo
  if test.isEmpty then (0, 0, elapsed, 0)
  else
    let y := predsG tree (majority_labelG train) test
    (accuracyOf y, f1Of y positive, elapsed, count_nodes tree)

/-- Modelled from the spec: the predictor's contract (spec section 4.4) as an
inductive path relation - from the root, follow the child matching the
example's value at each decision node; reaching a leaf yields its label;
at the first decision node with no matching child (in particular when the
example lacks a value for the node's attribute) yield the caller's default
immediately. -/
inductive PredictSpec (attrs : Attr → Option Value) (default : Option Label) :
    DTree → Option Label → Prop
  | leaf (l : Option Label) : PredictSpec attrs default (.leaf l) l
  | step (a : Attr) (cs : List (Value × DTree)) (v : Value) (child : DTree)
      (r : Option Label) (hv : attrs a = some v) (hc : lookupV cs v = some child)
      (ht : PredictSpec attrs default child r) :
      PredictSpec attrs default (.node a cs) r
  | missing (a : Attr) (cs : List (Value × DTree))
      (hm : ∀ v, attrs a = some v → lookupV cs v = none) :
      PredictSpec attrs default (.node a cs) default

/-- Modelled from the spec: `b` is the first-encountered attribute of
strictly greatest score in `attrs` - it occurs in `attrs`, no attribute
scores higher, and every attribute listed before its (first) occurrence
scores strictly lower. -/
def FirstArgmax (f : Attr → ℝ) (attrs : List Attr) (b : Attr) : Prop :=
  ∃ l1 l2, attrs = l1 ++ b :: l2 ∧ (∀ a ∈ attrs, f a ≤ f b) ∧
    ∀ a ∈ l1, f a < f b

/-- A `bump` keeps the head key of a nonempty counter. -/
theorem bump_head_key {α : Type} [DecidableEq α] (y : α) (c : ℕ)
    (rest : List (α × ℕ)) (x : α) :
    ∃ c2 rest2, bump ((y, c) :: rest) x = (y, c2) :: rest2 := by
  unfold bump
  by_cases hyx : y = x
  · exact ⟨c + 1, rest, by simp [hyx]⟩
  · exact ⟨c, bump rest x, by simp [hyx]⟩

theorem foldl_bump_head {α : Type} [DecidableEq α] (l : List α) (y : α) (c : ℕ)
    (rest : List (α × ℕ)) :
    ∃ c2 rest2, l.foldl bump ((y, c) :: rest) = (y, c2) :: rest2 := by
  induction l generalizing c rest with
  | nil => exact ⟨c, rest, rfl⟩
  | cons a as ih =>
      obtain ⟨c1, rest1, h1⟩ := bump_head_key y c rest a
      simpa [h1] using ih c1 rest1

/-- The first key of a counter is the first element of the counted list. -/
theorem countValues_cons_shape {α : Type} [DecidableEq α] (x : α) (xs : List α) :
    ∃ c rest, countValues (x :: xs) = (x, c) :: rest := by
  unfold countValues
  simpa [bump] using foldl_bump_head xs x 1 []

theorem countValues_eq_nil_iff {α : Type} [DecidableEq α] (l : List α) :
    countValues l = [] ↔ l = [] := by
  constructor
  · intro h
    cases l with
    | nil => rfl
    | cons x xs =>
        obtain ⟨c, rest, hc⟩ := countValues_cons_shape x xs
        rw [hc] at h
        cases h
  · intro h
    subst h
    rfl

/-- A singleton counter pins down the head of the list. -/
theorem countValues_singleton_head {α : Type} [DecidableEq α] (ls : List α)
    (l : α) (c : ℕ) (h : countValues ls = [(l, c)]) : ls.head? = some l := by
  cases ls with
  | nil => simp [countValues] at h
  | cons x xs =>
      obtain ⟨c2, rest, hc⟩ := countValues_cons_shape x xs
      rw [hc] at h
      cases h
      rfl

theorem foldl_bump_const {α : Type} [DecidableEq α] (l : α) (ls : List α)
    (hall : ∀ y ∈ ls, y = l) (n : ℕ) :
    ls.foldl bump [(l, n)] = [(l, n + ls.length)] := by
  induction ls generalizing n with
  | nil => rfl
  | cons y ys ih =>
      have hy : y = l := hall y (by simp)
      subst hy
      have hys : ∀ z ∈ ys, z = y := fun z hz => hall z (by simp [hz])
      have hstep : bump [(y, n)] y = [(y, n + 1)] := by simp [bump]
      rw [List.foldl_cons, hstep, ih hys (n + 1)]
      have hlen : n + 1 + ys.length = n + (y :: ys).length := by
        rw [List.length_cons]
        omega
      rw [hlen]

/-- A constant nonempty list counts to a single key with the full length. -/
theorem countValues_const {α : Type} [DecidableEq α] (l : α) (ls : List α)
    (hne : ls ≠ []) (hall : ∀ y ∈ ls, y = l) :
    countValues ls = [(l, ls.length)] := by
  cases ls with
  | nil => exact absurd rfl hne
  | cons y ys =>
      have hy : y = l := hall y (by simp)
      subst hy
      have hys : ∀ z ∈ ys, z = y := fun z hz => hall z (by simp [hz])
      unfold countValues
      have hstep : bump [] y = [(y, 1)] := by simp [bump]
      rw [List.foldl_cons, hstep, foldl_bump_const y ys hys 1]
      have hlen : 1 + ys.length = (y :: ys).length := by
        rw [List.length_cons]
        omega
      rw [hlen]

/-- Keys after an `upsert`: unchanged for a seen value, the new value appended
for an unseen one. -/
theorem upsert_map_fst (acc : List (Value × List Example)) (v : Value)
    (e : Example) :
    (upsert acc v e).map Prod.fst =
      if v ∈ acc.map Prod.fst then acc.map Prod.fst
      else acc.map Prod.fst ++ [v] := by
  induction acc with
  | nil => simp [upsert]
  | cons p rest ih =>
      rcases p with ⟨w, b⟩
      by_cases hw : w = v
      · subst hw
        simp [upsert]
      · simp only [upsert, if_neg hw, List.map_cons]
        rw [ih]
        by_cases hv : v ∈ rest.map Prod.fst
        · simp [hv, hw, Ne.symm hw]
        · simp [hv, hw, Ne.symm hw]

/-- An `upsert` preserves distinctness of bucket keys. -/
theorem upsert_keys_nodup (acc : List (Value × List Example)) (v : Value)
    (e : Example) (h : (acc.map Prod.fst).Nodup) :
    ((upsert acc v e).map Prod.fst).Nodup := by
  rw [upsert_map_fst]
  by_cases hv : v ∈ acc.map Prod.fst
  · simpa [hv] using h
  · simp only [if_neg hv]
    refine List.Nodup.append h (List.nodup_singleton v) ?_
    intro x hx hxv
    rw [List.mem_singleton] at hxv
    subst hxv
    exact hv hx

/-- Membership in an `upsert`: an old bucket, the fresh singleton bucket, or
an old bucket with the new example appended. -/
theorem mem_upsert (acc : List (Value × List Example)) (v : Value) (e : Example)
    (q : Value × List Example) (h : q ∈ upsert acc v e) :
    q ∈ acc ∨ q = (v, [e]) ∨ ∃ b, (v, b) ∈ acc ∧ q = (v, b ++ [e]) := by
  induction acc with
  | nil =>
      simp [upsert] at h
      exact Or.inr (Or.inl h)
  | cons p rest ih =>
      rcases p with ⟨w, b⟩
      by_cases hw : w = v
      · subst hw
        have hstep : upsert ((w, b) :: rest) w e = (w, b ++ [e]) :: rest := by
          simp [upsert]
        rw [hstep] at h
        rcases List.mem_cons.1 h with h1 | h1
        · exact Or.inr (Or.inr ⟨b, List.mem_cons_self _ _, h1⟩)
        · exact Or.inl (List.mem_cons_of_mem _ h1)
      · have hstep : upsert ((w, b) :: rest) v e = (w, b) :: upsert rest v e := by
          simp [upsert, hw]
        rw [hstep] at h
        rcases List.mem_cons.1 h with h1 | h1
        · exact Or.inl (by simp [h1])
        · rcases ih h1 with h2 | h2 | ⟨b2, hb2, hq2⟩
          · exact Or.inl (List.mem_cons_of_mem _ h2)
          · exact Or.inr (Or.inl h2)
          · exact Or.inr (Or.inr ⟨b2, List.mem_cons_of_mem _ hb2, hq2⟩)

/-- An `upsert` preserves the bucket-value characterisation. -/
theorem upsert_buckets_val (a : Attr) (acc : List (Value × List Example))
    (v : Value) (e : Example) (hv : e.1 a = v)
    (h : ∀ q ∈ acc, ∀ x ∈ q.2, x.1 a = q.1) :
    ∀ q ∈ upsert acc v e, ∀ x ∈ q.2, x.1 a = q.1 := by
  intro q hq x hx
  rcases mem_upsert acc v e q hq with h1 | h1 | ⟨b, hb, h1⟩
  · exact h q h1 x hx
  · subst h1
    simp at hx
    subst hx
    exact hv
  · subst h1
    simp only [List.mem_append, List.mem_singleton] at hx
    rcases hx with hx | hx
    · exact h (v, b) hb x hx
    · subst hx
      exact hv

/-- An `upsert` preserves nonemptiness of all buckets. -/
theorem upsert_buckets_ne_nil (acc : List (Value × List Example)) (v : Value)
    (e : Example) (h : ∀ q ∈ acc, q.2 ≠ []) :
    ∀ q ∈ upsert acc v e, q.2 ≠ [] := by
  intro q hq
  rcases mem_upsert acc v e q hq with h1 | h1 | ⟨b, hb, h1⟩
  · exact h q h1
  · subst h1
    simp
  · subst h1
    simp

/-- The examples stored after an `upsert` are a permutation of those stored
before, plus the new example. -/
theorem upsert_join_perm (acc : List (Value × List Example)) (v : Value)
    (e : Example) :
    ((upsert acc v e).map Prod.snd).flatten.Perm
      (((acc.map Prod.snd).flatten) ++ [e]) := by
  induction acc with
  | nil => simp [upsert]
  | cons p rest ih =>
      rcases p with ⟨w, b⟩
      by_cases hw : w = v
      · subst hw
        have hstep : upsert ((w, b) :: rest) w e = (w, b ++ [e]) :: rest := by
          simp [upsert]
        rw [hstep]
        simp only [List.map_cons, List.flatten_cons, List.append_assoc]
        exact List.Perm.append_left b List.perm_append_comm
      · have hstep : upsert ((w, b) :: rest) v e = (w, b) :: upsert rest v e := by
          simp [upsert, hw]
        rw [hstep]
        simp only [List.map_cons, List.flatten_cons, List.append_assoc]
        exact List.Perm.append_left b ih

theorem foldl_upsert_join_perm (l : List Example) (a : Attr)
    (acc : List (Value × List Example)) :
    (((l.foldl (fun acc e => upsert acc (e.1 a) e) acc)).map Prod.snd).flatten.Perm
      ((acc.map Prod.snd).flatten ++ l) := by
  induction l generalizing acc with
  | nil => simp
  | cons e es ih =>
      simp only [List.foldl_cons]
      have h1 := ih (upsert acc (e.1 a) e)
      have h2 : (((upsert acc (e.1 a) e).map Prod.snd).flatten ++ es).Perm
          ((((acc.map Prod.snd).flatten) ++ [e]) ++ es) :=
        (upsert_join_perm acc (e.1 a) e).append_right es
      have h3 := h1.trans h2
      simpa using h3

/-- The buckets of `split_by_attr` hold a permutation of the input. -/
theorem split_join_perm (examples : List Example) (a : Attr) :
    (((split_by_attr examples a).map Prod.snd).flatten).Perm examples := by
  simpa [split_by_attr] using foldl_upsert_join_perm examples a []

/-- The bucket keys of `split_by_attr` are distinct. -/
theorem split_keys_nodup (examples : List Example) (a : Attr) :
    ((split_by_attr examples a).map Prod.fst).Nodup := by
  unfold split_by_attr
  have haux : ∀ (l : List Example) (acc : List (Value × List Example)),
      (acc.map Prod.fst).Nodup →
      (((l.foldl (fun acc e => upsert acc (e.1 a) e) acc)).map Prod.fst).Nodup := by
    intro l
    induction l with
    | nil => intro acc h; exact h
    | cons e es ih =>
        intro acc h
        exact ih _ (upsert_keys_nodup acc (e.1 a) e h)
  exact haux examples [] (by simp)

/-- Every example in a bucket of `split_by_attr` carries the bucket's key as
its value for the split attribute. -/
theorem split_buckets_val (examples : List Example) (a : Attr) :
    ∀ q ∈ split_by_attr examples a, ∀ x ∈ q.2, x.1 a = q.1 := by
  unfold split_by_attr
  have haux : ∀ (l : List Example) (acc : List (Value × List Example)),
      (∀ q ∈ acc, ∀ x ∈ q.2, x.1 a = q.1) →
      ∀ q ∈ l.foldl (fun acc e => upsert acc (e.1 a) e) acc, ∀ x ∈ q.2,
        x.1 a = q.1 := by
    intro l
    induction l with
    | nil => intro acc h; exact h
    | cons e es ih =>
        intro acc h
        exact ih _ (upsert_buckets_val a acc (e.1 a) e rfl h)
  exact haux examples [] (by simp)

/-- Every bucket of `split_by_attr` is nonempty. -/
theorem split_buckets_ne_nil (examples : List Example) (a : Attr) :
    ∀ q ∈ split_by_attr examples a, q.2 ≠ [] := by
  unfold split_by_attr
  have haux : ∀ (l : List Example) (acc : List (Value × List Example)),
      (∀ q ∈ acc, q.2 ≠ []) →
      ∀ q ∈ l.foldl (fun acc e => upsert acc (e.1 a) e) acc, q.2 ≠ [] := by
    intro l
    induction l with
    | nil => intro acc h; exact h
    | cons e es ih =>
        intro acc h
        exact ih _ (upsert_buckets_ne_nil acc (e.1 a) e h)
  exact haux examples [] (by simp)

/-- Bucket sizes sum to the input size. -/
theorem split_length_sum (examples : List Example) (a : Attr) :
    ((split_by_attr examples a).map (fun q => q.2.length)).sum =
      examples.length := by
  have h1 := (split_join_perm examples a).length_eq
  rw [List.length_flatten] at h1
  simpa [Function.comp] using h1

/-- Each bucket is at most as large as the input. -/
theorem split_bucket_length_le (examples : List Example) (a : Attr)
    (q : Value × List Example) (hq : q ∈ split_by_attr examples a) :
    q.2.length ≤ examples.length := by
  rw [← split_length_sum examples a]
  have hmem : q.2.length ∈ (split_by_attr examples a).map (fun r => r.2.length) :=
    List.mem_map_of_mem _ hq
  exact List.le_sum_of_mem hmem

/-- In a list with distinct keys, entries with equal keys are equal. -/
theorem keyed_nodup_eq {β : Type} (l : List (Value × β))
    (h : (l.map Prod.fst).Nodup) (q r : Value × β) (hq : q ∈ l) (hr : r ∈ l)
    (hqr : q.1 = r.1) : q = r := by
  induction l with
  | nil => cases hq
  | cons p rest ih =>
      simp only [List.map_cons, List.nodup_cons] at h
      rcases List.mem_cons.1 hq with h1 | h1 <;>
        rcases List.mem_cons.1 hr with h2 | h2
      · rw [h1, h2]
      · exfalso
        apply h.1
        rw [h1] at hqr
        exact hqr ▸ List.mem_map_of_mem Prod.fst h2
      · exfalso
        apply h.1
        rw [h2] at hqr
        exact hqr ▸ List.mem_map_of_mem Prod.fst h1
      · exact ih h.2 h1 h2

theorem bp_val_aux (f : Attr → ℝ) (l : List Attr) (acc : Option Attr × ℝ)
    (hacc : ∀ x, acc.1 = some x → acc.2 = f x) :
    ∀ x, (l.foldl (fun acc a => if acc.2 < f a then (some a, f a) else acc)
      acc).1 = some x →
      (l.foldl (fun acc a => if acc.2 < f a then (some a, f a) else acc)
        acc).2 = f x := by
  induction l generalizing acc with
  | nil => exact hacc
  | cons a as ih =>
      simp only [List.foldl_cons]
      by_cases ha : acc.2 < f a
      · rw [if_pos ha]
        exact ih _ (by intro x hx; simp at hx; subst hx; rfl)
      · rw [if_neg ha]
        exact ih _ hacc

/-- When the selection loop picks an attribute, the returned score is that
attribute's score. -/
theorem bestPair_snd_of_fst (f : Attr → ℝ) (attrs : List Attr) (b : Attr)
    (h : (bestPair f attrs).1 = some b) : (bestPair f attrs).2 = f b := by
  unfold bestPair at h ⊢
  exact bp_val_aux f attrs _ (by intro x hx; simp at hx) b h

theorem bp_snd_cases_aux (f : Attr → ℝ) (l : List Attr) (acc : Option Attr × ℝ) :
    (l.foldl (fun acc a => if acc.2 < f a then (some a, f a) else acc) acc).2 =
      acc.2 ∨
    ∃ a ∈ l, (l.foldl (fun acc a => if acc.2 < f a then (some a, f a) else acc)
      acc).2 = f a := by
  induction l generalizing acc with
  | nil => exact Or.inl rfl
  | cons a as ih =>
      simp only [List.foldl_cons]
      by_cases ha : acc.2 < f a
      · rw [if_pos ha]
        rcases ih ((some a, f a)) with h1 | ⟨x, hx, h1⟩
        · exact Or.inr ⟨a, by simp, h1⟩
        · exact Or.inr ⟨x, by simp [hx], h1⟩
      · rw [if_neg ha]
        rcases ih acc with h1 | ⟨x, hx, h1⟩
        · exact Or.inl h1
        · exact Or.inr ⟨x, by simp [hx], h1⟩

theorem bp_no_update_aux (f : Attr → ℝ) (l : List Attr) (o : Option Attr)
    (s : ℝ) (h : ∀ a ∈ l, f a ≤ s) :
    l.foldl (fun acc a => if acc.2 < f a then (some a, f a) else acc) (o, s) =
      (o, s) := by
  induction l with
  | nil => rfl
  | cons a as ih =>
      simp only [List.foldl_cons]
      rw [if_neg (by simpa using h a (by simp))]
      exact ih (fun x hx => h x (by simp [hx]))

/-- When the first-encountered maximum scores above the `-1.0` sentinel, the
selection loop returns exactly it together with its score. -/
theorem bestPair_firstArgmax (f : Attr → ℝ) (attrs : List Attr) (m : Attr)
    (hm : FirstArgmax f attrs m) (hs : -1 < f m) :
    bestPair f attrs = (some m, f m) := by
  obtain ⟨l1, l2, hsplit, hall, hlt⟩ := hm
  unfold bestPair
  subst hsplit
  rw [List.foldl_append]
  have hacc1 : ∀ (o : Option Attr) (s : ℝ), s = -1 ∨ (∃ a ∈ l1, s = f a) →
      (l1.foldl (fun acc a => if acc.2 < f a then (some a, f a) else acc)
        (o, s)).2 = -1 ∨
      ∃ a ∈ l1,
        (l1.foldl (fun acc a => if acc.2 < f a then (some a, f a) else acc)
          (o, s)).2 = f a := by
    intro o s hos
    rcases bp_snd_cases_aux f l1 (o, s) with h1 | ⟨x, hx, h1⟩
    · rcases hos with h2 | ⟨a, ha, h2⟩
      · exact Or.inl (h1.trans h2)
      · exact Or.inr ⟨a, ha, h1.trans h2⟩
    · exact Or.inr ⟨x, hx, h1⟩
  have h2 : (l1.foldl (fun acc a => if acc.2 < f a then (some a, f a) else acc)
      ((none : Option Attr), -1)).2 < f m := by
    rcases hacc1 none (-1) (Or.inl rfl) with h1 | ⟨a, ha, h1⟩
    · rw [h1]; exact hs
    · rw [h1]; exact hlt a ha
  simp only [List.foldl_cons]
  rw [if_pos h2]
  exact bp_no_update_aux f l2 (some m) (f m)
    (fun a ha => hall a (by simp [ha]))

/-- A nonempty attribute list has a first-encountered argmax. -/
theorem exists_firstArgmax (f : Attr → ℝ) (attrs : List Attr)
    (h : attrs ≠ []) : ∃ b, FirstArgmax f attrs b := by
  induction attrs with
  | nil => exact absurd rfl h
  | cons x xs ih =>
      by_cases hxs : xs = []
      · subst hxs
        refine ⟨x, [], [], rfl, ?_, by simp⟩
        intro a ha
        simp at ha
        subst ha
        exact le_refl _
      · obtain ⟨b, l1, l2, hsplit, hall, hlt⟩ := ih hxs
        by_cases hbx : f b ≤ f x
        · refine ⟨x, [], xs, rfl, ?_, by simp⟩
          intro a ha
          rcases List.mem_cons.1 ha with h1 | h1
          · subst h1; exact le_refl _
          · exact le_trans (hall a h1) hbx
        · refine ⟨b, x :: l1, l2, by rw [List.cons_append, ← hsplit], ?_, ?_⟩
          · intro a ha
            rcases List.mem_cons.1 ha with h1 | h1
            · subst h1; exact le_of_lt (lt_of_not_le hbx)
            · exact hall a h1
          · intro a ha
            rcases List.mem_cons.1 ha with h1 | h1
            · subst h1; exact lt_of_not_le hbx
            · exact hlt a h1

/-- Shape lemma: pure-class case of generate_results_table.py's builder. -/
theorem buildG_pure (ex : List Example) (attrs : List Attr) (algo : Algo)
    (hp : (countValues (ex.map Prod.snd)).length = 1) :
    build_treeG ex attrs algo = .leaf (ex.map Prod.snd).head? := by
  rw [build_treeG.eq_def]
  simp [hp]

/-- Shape lemma: attribute-exhaustion case of generate_results_table.py's
builder. -/
theorem buildG_exhaust (ex : List Example) (attrs : List Attr) (algo : Algo)
    (hp : (countValues (ex.map Prod.snd)).length ≠ 1) (ha : attrs = []) :
    build_treeG ex attrs algo = .leaf (majority_labelG ex) := by
  rw [build_treeG.eq_def]
  simp [hp, ha]

/-- Shape lemma: no attribute beat the sentinel in
generate_results_table.py's builder. -/
theorem buildG_none (ex : List Example) (attrs : List Attr) (algo : Algo)
    (hp : (countValues (ex.map Prod.snd)).length ≠ 1) (ha : attrs ≠ [])
    (hb : (bestPair (scoreG algo ex) attrs).1 = none) :
    build_treeG ex attrs algo = .leaf (majority_labelG ex) := by
  rw [build_treeG.eq_def]
  simp [hp, ha]
  split
  · rfl
  · rename_i b' h'
    rw [h'] at hb
    cases hb

/-- Shape lemma: split case of generate_results_table.py's builder. -/
theorem buildG_node (ex : List Example) (attrs : List Attr) (algo : Algo)
    (b : Attr) (hp : (countValues (ex.map Prod.snd)).length ≠ 1)
    (ha : attrs ≠ []) (hb : (bestPair (scoreG algo ex) attrs).1 = some b) :
    build_treeG ex attrs algo = .node b ((split_by_attr ex b).map (fun p =>
      (p.1,
        if p.2.isEmpty then DTree.leaf (majority_labelG ex)
        else build_treeG p.2 (attrs.filter (fun a => a ≠ b)) algo))) := by
  rw [build_treeG.eq_def]
  simp [hp, ha]
  split
  · simp_all
  · rename_i b' h'
    rw [h'] at hb
    simp at hb
    subst hb
    rfl

/-- Shape lemma: pure-class case of plot_id3_tree.py's builder. -/
theorem buildP_pure (ex : List Example) (attrs : List Attr) (algo : Algo)
    (hp : (countValues (ex.map Prod.snd)).length = 1) :
    build_treeP ex attrs algo =
      .leaf ((countValues (ex.map Prod.snd)).map Prod.fst).head? := by
  rw [build_treeP.eq_def]
  simp [hp]

/-- Shape lemma: exhaustion/empty case of plot_id3_tree.py's builder. -/
theorem buildP_exhaust (ex : List Example) (attrs : List Attr) (algo : Algo)
    (hp : (countValues (ex.map Prod.snd)).length ≠ 1)
    (ha : attrs = [] ∨ ex.isEmpty) :
    build_treeP ex attrs algo = .leaf (majority_labelP ex) := by
  rw [build_treeP.eq_def]
  simp only [if_neg hp, if_pos ha]

/-- Shape lemma: `choose_best_attribute` returned `None` in
plot_id3_tree.py's builder. -/
theorem buildP_none (ex : List Example) (attrs : List Attr) (algo : Algo)
    (hp : (countValues (ex.map Prod.snd)).length ≠ 1)
    (ha : ¬(attrs = [] ∨ ex.isEmpty))
    (hb : choose_best_attribute ex attrs algo = none) :
    build_treeP ex attrs algo = .leaf (majority_labelP ex) := by
  rw [build_treeP.eq_def]
  simp only [if_neg hp, if_neg ha]
  split
  · rfl
  · rename_i b' h'
    rw [h'] at hb
    cases hb

/-- Shape lemma: split case of plot_id3_tree.py's builder. -/
theorem buildP_node (ex : List Example) (attrs : List Attr) (algo : Algo)
    (b : Attr) (hp : (countValues (ex.map Prod.snd)).length ≠ 1)
    (ha : ¬(attrs = [] ∨ ex.isEmpty))
    (hb : choose_best_attribute ex attrs algo = some b) :
    build_treeP ex attrs algo = .node b ((split_by_attr ex b).map (fun p =>
      (p.1,
        if p.2.isEmpty then DTree.leaf (majority_labelP ex)
        else build_treeP p.2 (attrs.filter (fun a => a ≠ b)) algo))) := by
  rw [build_treeP.eq_def]
  simp only [if_neg hp, if_neg ha]
  split
  · rename_i h'
    rw [h'] at hb
    cases hb
  · rename_i b' h'
    rw [h'] at hb
    simp at hb
    subst hb
    rfl

theorem buildGnf_pure (ex : List Example) (attrs : List Attr) (algo : Algo)
    (hp : (countValues (ex.map Prod.snd)).length = 1) :
    build_treeG_nofallback ex attrs algo = .leaf (ex.map Prod.snd).head? := by
  rw [build_treeG_nofallback.eq_def]
  simp [hp]

theorem buildGnf_exhaust (ex : List Example) (attrs : List Attr) (algo : Algo)
    (hp : (countValues (ex.map Prod.snd)).length ≠ 1) (ha : attrs = []) :
    build_treeG_nofallback ex attrs algo = .leaf (majority_labelG ex) := by
  rw [build_treeG_nofallback.eq_def]
  simp [hp, ha]

theorem buildGnf_none (ex : List Example) (attrs : List Attr) (algo : Algo)
    (hp : (countValues (ex.map Prod.snd)).length ≠ 1) (ha : attrs ≠ [])
    (hb : (bestPair (scoreG algo ex) attrs).1 = none) :
    build_treeG_nofallback ex attrs algo = .leaf (majority_labelG ex) := by
  rw [build_treeG_nofallback.eq_def]
  simp [hp, ha]
  split
  · rfl
  · rename_i b' h'
    rw [h'] at hb
    cases hb

theorem buildGnf_node (ex : List Example) (attrs : List Attr) (algo : Algo)
    (b : Attr) (hp : (countValues (ex.map Prod.snd)).length ≠ 1)
    (ha : attrs ≠ []) (hb : (bestPair (scoreG algo ex) attrs).1 = some b) :
    build_treeG_nofallback ex attrs algo =
      .node b ((split_by_attr ex b).map (fun p =>
        (p.1, build_treeG_nofallback p.2 (attrs.filter (fun a => a ≠ b)) algo))) := by
  rw [build_treeG_nofallback.eq_def]
  simp [hp, ha]
  split
  · simp_all
  · rename_i b' h'
    rw [h'] at hb
    simp at hb
    subst hb
    rfl

theorem buildPnf_pure (ex : List Example) (attrs : List Attr) (algo : Algo)
    (hp : (countValues (ex.map Prod.snd)).length = 1) :
    build_treeP_nofallback ex attrs algo =
      .leaf ((countValues (ex.map Prod.snd)).map Prod.fst).head? := by
  rw [build_treeP_nofallback.eq_def]
  simp [hp]

theorem buildPnf_exhaust (ex : List Example) (attrs : List Attr) (algo : Algo)
    (hp : (countValues (ex.map Prod.snd)).length ≠ 1)
    (ha : attrs = [] ∨ ex.isEmpty) :
    build_treeP_nofallback ex attrs algo = .leaf (majority_labelP ex) := by
  rw [build_treeP_nofallback.eq_def]
  simp only [if_neg hp, if_pos ha]

theorem buildPnf_none (ex : List Example) (attrs : List Attr) (algo : Algo)
    (hp : (countValues (ex.map Prod.snd)).length ≠ 1)
    (ha : ¬(attrs = [] ∨ ex.isEmpty))
    (hb : choose_best_attribute ex attrs algo = none) :
    build_treeP_nofallback ex attrs algo = .leaf (majority_labelP ex) := by
  rw [build_treeP_nofallback.eq_def]
  simp only [if_neg hp, if_neg ha]
  split
  · rfl
  · rename_i b' h'
    rw [h'] at hb
    cases hb

theorem buildPnf_node (ex : List Example) (attrs : List Attr) (algo : Algo)
    (b : Attr) (hp : (countValues (ex.map Prod.snd)).length ≠ 1)
    (ha : ¬(attrs = [] ∨ ex.isEmpty))
    (hb : choose_best_attribute ex attrs algo = some b) :
    build_treeP_nofallback ex attrs algo =
      .node b ((split_by_attr ex b).map (fun p =>
        (p.1, build_treeP_nofallback p.2 (attrs.filter (fun a => a ≠ b)) algo))) := by
  rw [build_treeP_nofallback.eq_def]
  simp only [if_neg hp, if_neg ha]
  split
  · rename_i h'
    rw [h'] at hb
    cases hb
  · rename_i b' h'
    rw [h'] at hb
    simp at hb
    subst hb
    rfl

theorem okRec_pure (ex : List Example) (attrs : List Attr) (algo : Algo)
    (hp : (countValues (ex.map Prod.snd)).length = 1) : okRec ex attrs algo := by
  rw [okRec.eq_def]
  simp [hp]

theorem okRec_exhaust (ex : List Example) (attrs : List Attr) (algo : Algo)
    (ha : attrs = []) : okRec ex attrs algo := by
  rw [okRec.eq_def]
  by_cases hp : (countValues (ex.map Prod.snd)).length = 1 <;> simp [hp, ha]

theorem okRec_elim (ex : List Example) (attrs : List Attr) (algo : Algo)
    (hp : (countValues (ex.map Prod.snd)).length ≠ 1) (ha : attrs ≠ [])
    (hok : okRec ex attrs algo) :
    (∀ a ∈ attrs, scoreG algo ex a = scoreP algo ex a) ∧
      ∀ b, (bestPair (scoreG algo ex) attrs).1 = some b →
        1e-9 < (bestPair (scoreG algo ex) attrs).2 ∧
          ∀ p ∈ split_by_attr ex b,
            okRec p.2 (attrs.filter (fun a => a ≠ b)) algo := by
  rw [okRec.eq_def] at hok
  simp only [if_neg hp, if_neg ha] at hok
  refine ⟨hok.1, ?_⟩
  intro b hb
  have h2 := hok.2
  revert h2
  split
  · rename_i h'
    rw [h'] at hb
    cases hb
  · rename_i b' h'
    rw [h'] at hb
    simp at hb
    subst hb
    exact fun h2 => h2

theorem okRec_split (ex : List Example) (attrs : List Attr) (algo : Algo)
    (hp : (countValues (ex.map Prod.snd)).length ≠ 1) (ha : attrs ≠ [])
    (hagree : ∀ a ∈ attrs, scoreG algo ex a = scoreP algo ex a)
    (hrec : ∀ b, (bestPair (scoreG algo ex) attrs).1 = some b →
      1e-9 < (bestPair (scoreG algo ex) attrs).2 ∧
        ∀ p ∈ split_by_attr ex b,
          okRec p.2 (attrs.filter (fun a => a ≠ b)) algo) :
    okRec ex attrs algo := by
  rw [okRec.eq_def]
  simp only [if_neg hp, if_neg ha]
  refine ⟨hagree, ?_⟩
  split
  · trivial
  · rename_i b' h'
    exact hrec b' h'

/-- The two scripts' majority labels agree (both are the first-encountered
label of maximal count; both are `none`-valued on the empty list in the
model). -/
theorem majority_label_eq (ex : List Example) :
    majority_labelG ex = majority_labelP ex := by
  unfold majority_labelG majority_labelP
  by_cases h : ex.map Prod.snd = []
  · rw [if_pos h, h]
    rfl
  · rw [if_neg h]

/-- plot_id3_tree.py's entropy of an example list is the other script's
entropy of its label column. -/
theorem entropyP_eq (ex : List Example) :
    entropyP ex = entropyG (ex.map Prod.snd) := by
  unfold entropyP entropyG
  rw [List.length_map]
  by_cases h : ex = []
  · subst h
    simp
  · rw [if_neg (by simpa [List.isEmpty_iff] using h),
      if_neg (by simpa [List.map_eq_nil_iff] using h)]

/-- plot_id3_tree.py's Gini impurity is the other script's `gini` of the
label column. -/
theorem gini_impurityP_eq (ex : List Example) :
    gini_impurityP ex = giniG (ex.map Prod.snd) := by
  unfold gini_impurityP giniG
  rw [List.length_map]
  by_cases h : ex = []
  · subst h
    simp
  · rw [if_neg (by simpa [List.isEmpty_iff] using h),
      if_neg (by simpa [List.map_eq_nil_iff] using h)]

/-- The two scripts compute the same Gini gain. -/
theorem gini_gainP_eq (ex : List Example) (a : Attr) :
    gini_gainP ex a = gini_gainG ex a := by
  unfold gini_gainP gini_gainG
  by_cases h : ex = []
  · subst h
    simp [split_by_attr, giniG]
  · rw [if_neg (by simpa [List.isEmpty_iff] using h)]
    simp only [gini_impurityP_eq]

/-- The two scripts compute the same information gain. -/
theorem information_gainP_eq (ex : List Example) (a : Attr) :
    information_gainP ex a = information_gainG ex a := by
  unfold information_gainP information_gainG
  by_cases h : ex = []
  · subst h
    simp [split_by_attr, entropyG]
  · rw [if_neg (by simpa [List.isEmpty_iff] using h)]
    simp only [entropyP_eq]

/-- The first key of a counter is the first counted element. -/
theorem countValues_head_key {α : Type} [DecidableEq α] (ls : List α) :
    ((countValues ls).map Prod.fst).head? = ls.head? := by
  cases ls with
  | nil => rfl
  | cons x xs =>
      obtain ⟨c, rest, hshape⟩ := countValues_cons_shape x xs
      rw [hshape]
      rfl

theorem bestPair_congr_aux (f g : Attr → ℝ) (l : List Attr)
    (h : ∀ a ∈ l, f a = g a) (acc : Option Attr × ℝ) :
    l.foldl (fun acc a => if acc.2 < f a then (some a, f a) else acc) acc =
      l.foldl (fun acc a => if acc.2 < g a then (some a, g a) else acc) acc := by
  induction l generalizing acc with
  | nil => rfl
  | cons a as ih =>
      simp only [List.foldl_cons]
      rw [h a (by simp)]
      exact ih (fun x hx => h x (by simp [hx])) _

/-- Attribute-wise equal scores give equal selection results. -/
theorem bestPair_congr (f g : Attr → ℝ) (attrs : List Attr)
    (h : ∀ a ∈ attrs, f a = g a) : bestPair f attrs = bestPair g attrs := by
  unfold bestPair
  exact bestPair_congr_aux f g attrs h _

theorem build_equiv_aux (n : ℕ) :
    ∀ (ex : List Example) (attrs : List Attr) (algo : Algo),
      attrs.length < n → ex ≠ [] → okRec ex attrs algo →
      build_treeG ex attrs algo = build_treeP ex attrs algo := by
  induction n with
  | zero => intro ex attrs algo hlen; omega
  | succ n ih =>
      intro ex attrs algo hlen hne hok
      by_cases hp : (countValues (ex.map Prod.snd)).length = 1
      · rw [buildG_pure _ _ _ hp, buildP_pure _ _ _ hp,
          countValues_head_key (ex.map Prod.snd)]
      · by_cases haP : attrs = [] ∨ ex.isEmpty
        · have ha : attrs = [] := by
            rcases haP with h1 | h1
            · exact h1
            · exact absurd (List.isEmpty_iff.1 h1) hne
          rw [buildG_exhaust _ _ _ hp ha, buildP_exhaust _ _ _ hp haP,
            majority_label_eq]
        · have ha : attrs ≠ [] := fun h => haP (Or.inl h)
          obtain ⟨hagree, hbr⟩ := okRec_elim ex attrs algo hp ha hok
          have hbp : bestPair (scoreG algo ex) attrs =
              bestPair (scoreP algo ex) attrs :=
            bestPair_congr _ _ attrs hagree
          cases hb : (bestPair (scoreG algo ex) attrs).1 with
          | none =>
              have hcb : choose_best_attribute ex attrs algo = none := by
                unfold choose_best_attribute
                rw [← hbp, hb]
              rw [buildG_none _ _ _ hp ha hb, buildP_none _ _ _ hp haP hcb,
                majority_label_eq]
          | some b =>
              obtain ⟨hgt, hrec⟩ := hbr b hb
              have hcb : choose_best_attribute ex attrs algo = some b := by
                unfold choose_best_attribute
                rw [← hbp, hb]
                simp only
                rw [if_neg (not_le.2 hgt)]
              rw [buildG_node _ _ _ _ hp ha hb, buildP_node _ _ _ _ hp haP hcb,
                majority_label_eq]
              congr 1
              apply List.map_congr_left
              intro p hpmem
              have hpne : p.2 ≠ [] := split_buckets_ne_nil ex b p hpmem
              have hpe : ¬(p.2.isEmpty = true) := by
                simpa [List.isEmpty_iff] using hpne
              rw [if_neg hpe, if_neg hpe]
              have hblen : (attrs.filter (fun a => a ≠ b)).length < attrs.length :=
                length_filter_ne_lt attrs b (bestPair_fst_mem _ _ _ hb)
              exact congrArg _
                (ih p.2 _ algo (by omega) hpne (hrec p hpmem))

theorem buildG_nofallback_aux (n : ℕ) :
    ∀ (ex : List Example) (attrs : List Attr) (algo : Algo),
      attrs.length < n →
      build_treeG ex attrs algo = build_treeG_nofallback ex attrs algo := by
  induction n with
  | zero => intro ex attrs algo hlen; omega
  | succ n ih =>
      intro ex attrs algo hlen
      by_cases hp : (countValues (ex.map Prod.snd)).length = 1
      · rw [buildG_pure _ _ _ hp, buildGnf_pure _ _ _ hp]
      · by_cases ha : attrs = []
        · rw [buildG_exhaust _ _ _ hp ha, buildGnf_exhaust _ _ _ hp ha]
        · cases hb : (bestPair (scoreG algo ex) attrs).1 with
          | none => rw [buildG_none _ _ _ hp ha hb, buildGnf_none _ _ _ hp ha hb]
          | some b =>
              rw [buildG_node _ _ _ _ hp ha hb, buildGnf_node _ _ _ _ hp ha hb]
              congr 1
              apply List.map_congr_left
              intro p hpmem
              have hpne : p.2 ≠ [] := split_buckets_ne_nil ex b p hpmem
              have hpe : ¬(p.2.isEmpty = true) := by
                simpa [List.isEmpty_iff] using hpne
              rw [if_neg hpe]
              have hblen : (attrs.filter (fun a => a ≠ b)).length < attrs.length :=
                length_filter_ne_lt attrs b (bestPair_fst_mem _ _ _ hb)
              exact congrArg _ (ih p.2 _ algo (by omega))

theorem buildP_nofallback_aux (n : ℕ) :
    ∀ (ex : List Example) (attrs : List Attr) (algo : Algo),
      attrs.length < n →
      build_treeP ex attrs algo = build_treeP_nofallback ex attrs algo := by
  induction n with
  | zero => intro ex attrs algo hlen; omega
  | succ n ih =>
      intro ex attrs algo hlen
      by_cases hp : (countValues (ex.map Prod.snd)).length = 1
      · rw [buildP_pure _ _ _ hp, buildPnf_pure _ _ _ hp]
      · by_cases ha : attrs = [] ∨ ex.isEmpty
        · rw [buildP_exhaust _ _ _ hp ha, buildPnf_exhaust _ _ _ hp ha]
        · cases hb : choose_best_attribute ex attrs algo with
          | none => rw [buildP_none _ _ _ hp ha hb, buildPnf_none _ _ _ hp ha hb]
          | some b =>
              rw [buildP_node _ _ _ _ hp ha hb, buildPnf_node _ _ _ _ hp ha hb]
              congr 1
              apply List.map_congr_left
              intro p hpmem
              have hpne : p.2 ≠ [] := split_buckets_ne_nil ex b p hpmem
              have hpe : ¬(p.2.isEmpty = true) := by
                simpa [List.isEmpty_iff] using hpne
              rw [if_neg hpe]
              have hblen : (attrs.filter (fun a => a ≠ b)).length < attrs.length :=
                length_filter_ne_lt attrs b (choose_best_attribute_mem _ _ _ _ hb)
              exact congrArg _ (ih p.2 _ algo (by omega))

/-- A two-example dataset in which the only attribute does not discriminate:
both examples hold value `0` everywhere, with labels `0` and `1`. -/
def exC : List Example := [((fun _ => 0), 0), ((fun _ => 0), 1)]

/-- A two-example dataset in which attribute values separate the labels:
constant value `0` with label `0`, constant value `1` with label `1`. -/
def exW : List Example := [((fun _ => 0), 0), ((fun _ => 1), 1)]

theorem giniG_01 : giniG [0, 1] = 1 / 2 := by
  unfold giniG
  rw [if_neg (by simp)]
  rw [show countValues ([0, 1] : List ℕ) = [(0, 1), (1, 1)] from rfl]
  simp only [List.foldl_cons, List.foldl_nil]
  norm_num

theorem giniG_single (l : Label) : giniG [l] = 0 := by
  unfold giniG
  rw [if_neg (by simp)]
  rw [show countValues ([l] : List ℕ) = [(l, 1)] from countValues_const l [l]
    (by simp) (by simp)]
  simp only [List.foldl_cons, List.foldl_nil]
  norm_num

theorem gini_gainG_exC : gini_gainG exC 0 = 0 := by
  unfold gini_gainG
  rw [show exC.map Prod.snd = [0, 1] from rfl,
    show split_by_attr exC 0 = [(0, exC)] from rfl]
  simp only [List.foldl_cons, List.foldl_nil]
  rw [show exC.map Prod.snd = [0, 1] from rfl, giniG_01,
    show (exC.length : ℝ) = 2 from by norm_num [exC]]
  norm_num

theorem gini_gainG_exW : gini_gainG exW 0 = 1 / 2 := by
  unfold gini_gainG
  rw [show exW.map Prod.snd = [0, 1] from rfl,
    show split_by_attr exW 0 =
      [(0, [((fun _ => 0), 0)]), (1, [((fun _ => 1), 1)])] from rfl]
  simp only [List.foldl_cons, List.foldl_nil]
  rw [show (([((fun _ => (0 : ℕ)), (0 : ℕ))] : List Example).map Prod.snd) = [0]
      from rfl,
    show (([((fun _ => (1 : ℕ)), (1 : ℕ))] : List Example).map Prod.snd) = [1]
      from rfl,
    giniG_01, giniG_single, giniG_single,
    show (exW.length : ℝ) = 2 from by norm_num [exW]]
  norm_num

theorem bestPair_exC : bestPair (scoreG Algo.cart exC) [0] = (some 0, 0) := by
  unfold bestPair
  simp only [List.foldl_cons, List.foldl_nil]
  rw [show scoreG Algo.cart exC 0 = gini_gainG exC 0 from rfl, gini_gainG_exC]
  norm_num

theorem bestPair_exW : bestPair (scoreG Algo.cart exW) [0] = (some 0, 1 / 2) := by
  unfold bestPair
  simp only [List.foldl_cons, List.foldl_nil]
  rw [show scoreG Algo.cart exW 0 = gini_gainG exW 0 from rfl, gini_gainG_exW]
  norm_num

theorem buildG_exC_inner : build_treeG exC [] Algo.cart = .leaf (some 0) := by
  rw [buildG_exhaust exC [] Algo.cart (by decide) rfl]
  rfl

theorem buildG_exC : build_treeG exC [0] Algo.cart =
    .node 0 [(0, .leaf (some 0))] := by
  have hb : (bestPair (scoreG Algo.cart exC) [0]).1 = some 0 := by
    rw [bestPair_exC]
  rw [buildG_node exC [0] Algo.cart 0 (by decide) (by simp) hb]
  rw [show split_by_attr exC 0 = [(0, exC)] from rfl]
  simp only [List.map_cons, List.map_nil]
  rw [show ([0] : List Attr).filter (fun a => a ≠ 0) = [] from by decide]
  rw [if_neg (by decide : ¬(exC.isEmpty = true))]
  rw [buildG_exC_inner]

theorem scoreP_cart_exC : scoreP Algo.cart exC 0 = 0 := by
  rw [show scoreP Algo.cart exC 0 = gini_gainP exC 0 from rfl, gini_gainP_eq,
    gini_gainG_exC]

theorem choose_best_exC : choose_best_attribute exC [0] Algo.cart = none := by
  unfold choose_best_attribute
  have hbp : bestPair (scoreP Algo.cart exC) [0] = (some 0, 0) := by
    unfold bestPair
    simp only [List.foldl_cons, List.foldl_nil]
    rw [scoreP_cart_exC]
    norm_num
  rw [hbp]
  show (if (0 : ℝ) ≤ 1e-9 then (none : Option Attr) else some 0) = none
  rw [if_pos (by norm_num)]

theorem buildP_exC : build_treeP exC [0] Algo.cart = .leaf (some 0) := by
  rw [buildP_none exC [0] Algo.cart (by decide) (by decide) choose_best_exC]
  rfl

theorem okRec_exW : okRec exW [0] Algo.cart := by
  apply okRec_split _ _ _ (by decide) (by simp)
  · intro a ha
    simp only [List.mem_singleton] at ha
    subst ha
    rw [show scoreG Algo.cart exW 0 = gini_gainG exW 0 from rfl,
      show scoreP Algo.cart exW 0 = gini_gainP exW 0 from rfl, gini_gainP_eq]
  · intro b hb
    rw [bestPair_exW] at hb
    simp only [Option.some.injEq] at hb
    subst hb
    constructor
    · rw [show (bestPair (scoreG Algo.cart exW) [0]).2 = 1 / 2 from by
        rw [bestPair_exW]]
      norm_num
    · intro p hp
      rw [show split_by_attr exW 0 =
          [(0, [((fun _ => 0), 0)]), (1, [((fun _ => 1), 1)])] from rfl] at hp
      rcases List.mem_cons.1 hp with h1 | h1
      · subst h1
        exact okRec_exhaust _ _ _ (by decide)
      · rcases List.mem_cons.1 h1 with h2 | h2
        · subst h2
          exact okRec_exhaust _ _ _ (by decide)
        · cases h2


theorem predict_one_leaf (l : Option Label) (attrs : Attr → Option Value)
    (d : Option Label) : predict_one (.leaf l) attrs d = l := by
  rw [predict_one]

theorem predict_one_noval (a : Attr) (cs : List (Value × DTree))
    (attrs : Attr → Option Value) (d : Option Label) (hv : attrs a = none) :
    predict_one (.node a cs) attrs d = d := by
  rw [predict_one, hv]

theorem predict_one_nobranch (a : Attr) (cs : List (Value × DTree))
    (attrs : Attr → Option Value) (d : Option Label) (v : Value)
    (hv : attrs a = some v) (hc : lookupV cs v = none) :
    predict_one (.node a cs) attrs d = d := by
  rw [predict_one, hv]
  split
  · rename_i h'
    cases h'
  · rename_i w h'
    injection h' with hw
    subst hw
    split
    · rfl
    · rename_i child h2
      rw [h2] at hc
      cases hc

theorem predict_one_descend (a : Attr) (cs : List (Value × DTree))
    (attrs : Attr → Option Value) (d : Option Label) (v : Value) (child : DTree)
    (hv : attrs a = some v) (hc : lookupV cs v = some child) :
    predict_one (.node a cs) attrs d = predict_one child attrs d := by
  rw [predict_one, hv]
  split
  · rename_i h'
    cases h'
  · rename_i w h'
    injection h' with hw
    subst hw
    split
    · rename_i h2
      rw [h2] at hc
      cases hc
    · rename_i child' h2
      rw [h2] at hc
      injection hc with hh
      rw [hh]

theorem depthT_leaf (l : Option Label) : depthT (.leaf l) = 0 := by
  rw [depthT]

theorem depthT_node (b : Attr) (cs : List (Value × DTree)) :
    depthT (.node b cs) = 1 + natMax (cs.attach.map (fun p => depthT p.1.2)) := by
  rw [depthT]

theorem count_nodes_leaf (l : Option Label) : count_nodes (.leaf l) = 1 := by
  rw [count_nodes]

theorem natMax_le (l : List ℕ) (m : ℕ) (h : ∀ x ∈ l, x ≤ m) : natMax l ≤ m := by
  induction l with
  | nil => exact Nat.zero_le m
  | cons x xs ih =>
      exact max_le (h x (by simp)) (ih (fun y hy => h y (by simp [hy])))

theorem depthG_aux (n : ℕ) :
    ∀ (ex : List Example) (attrs : List Attr) (algo : Algo),
      attrs.length < n → depthT (build_treeG ex attrs algo) ≤ attrs.length := by
  induction n with
  | zero => intro ex attrs algo hlen; omega
  | succ n ih =>
      intro ex attrs algo hlen
      by_cases hp : (countValues (ex.map Prod.snd)).length = 1
      · rw [buildG_pure _ _ _ hp, depthT_leaf]
        exact Nat.zero_le _
      · by_cases ha : attrs = []
        · rw [buildG_exhaust _ _ _ hp ha, depthT_leaf]
          exact Nat.zero_le _
        · cases hb : (bestPair (scoreG algo ex) attrs).1 with
          | none =>
              rw [buildG_none _ _ _ hp ha hb, depthT_leaf]
              exact Nat.zero_le _
          | some b =>
              rw [buildG_node _ _ _ _ hp ha hb, depthT_node]
              have hflt : (attrs.filter (fun a => a ≠ b)).length < attrs.length :=
                length_filter_ne_lt attrs b (bestPair_fst_mem _ _ _ hb)
              have hbound : natMax
                  ((((split_by_attr ex b).map (fun p =>
                    (p.1,
                      if p.2.isEmpty then DTree.leaf (majority_labelG ex)
                      else build_treeG p.2 (attrs.filter (fun a => a ≠ b))
                        algo))).attach).map (fun p => depthT p.1.2)) ≤
                  (attrs.filter (fun a => a ≠ b)).length := by
                apply natMax_le
                intro x hx
                rcases List.mem_map.1 hx with ⟨p, hpmem, hpx⟩
                rcases List.mem_map.1 p.2 with ⟨q, hq, hpq⟩
                rw [← hpx, ← hpq]
                by_cases hqe : q.2.isEmpty = true
                · rw [if_pos hqe, depthT_leaf]
                  exact Nat.zero_le _
                · rw [if_neg hqe]
                  exact ih q.2 _ algo (by omega)
              omega

theorem depthP_aux (n : ℕ) :
    ∀ (ex : List Example) (attrs : List Attr) (algo : Algo),
      attrs.length < n → depthT (build_treeP ex attrs algo) ≤ attrs.length := by
  induction n with
  | zero => intro ex attrs algo hlen; omega
  | succ n ih =>
      intro ex attrs algo hlen
      by_cases hp : (countValues (ex.map Prod.snd)).length = 1
      · rw [buildP_pure _ _ _ hp, depthT_leaf]
        exact Nat.zero_le _
      · by_cases ha : attrs = [] ∨ ex.isEmpty
        · rw [buildP_exhaust _ _ _ hp ha, depthT_leaf]
          exact Nat.zero_le _
        · cases hb : choose_best_attribute ex attrs algo with
          | none =>
              rw [buildP_none _ _ _ hp ha hb, depthT_leaf]
              exact Nat.zero_le _
          | some b =>
              rw [buildP_node _ _ _ _ hp ha hb, depthT_node]
              have hflt : (attrs.filter (fun a => a ≠ b)).length < attrs.length :=
                length_filter_ne_lt attrs b (choose_best_attribute_mem _ _ _ _ hb)
              have hbound : natMax
                  ((((split_by_attr ex b).map (fun p =>
                    (p.1,
                      if p.2.isEmpty then DTree.leaf (majority_labelP ex)
                      else build_treeP p.2 (attrs.filter (fun a => a ≠ b))
                        algo))).attach).map (fun p => depthT p.1.2)) ≤
                  (attrs.filter (fun a => a ≠ b)).length := by
                apply natMax_le
                intro x hx
                rcases List.mem_map.1 hx with ⟨p, hpmem, hpx⟩
                rcases List.mem_map.1 p.2 with ⟨q, hq, hpq⟩
                rw [← hpx, ← hpq]
                by_cases hqe : q.2.isEmpty = true
                · rw [if_pos hqe, depthT_leaf]
                  exact Nat.zero_le _
                · rw [if_neg hqe]
                  exact ih q.2 _ algo (by omega)
              omega

theorem predict_spec_aux (n : ℕ) :
    ∀ (t : DTree), sizeOf t < n → ∀ (attrs : Attr → Option Value)
      (default : Option Label),
      PredictSpec attrs default t (predict_one t attrs default) := by
  induction n with
  | zero => intro t ht; omega
  | succ n ih =>
      intro t ht attrs default
      cases t with
      | leaf l =>
          rw [predict_one_leaf]
          exact PredictSpec.leaf l
      | node a cs =>
          cases hv : attrs a with
          | none =>
              rw [predict_one_noval a cs attrs default hv]
              refine PredictSpec.missing a cs ?_
              intro v hv2
              rw [hv] at hv2
              cases hv2
          | some v =>
              cases hc : lookupV cs v with
              | none =>
                  rw [predict_one_nobranch a cs attrs default v hv hc]
                  refine PredictSpec.missing a cs ?_
                  intro v2 hv2
                  rw [hv] at hv2
                  injection hv2 with hh
                  rw [← hh]
                  exact hc
              | some child =>
                  rw [predict_one_descend a cs attrs default v child hv hc]
                  have hsz := lookupV_sizeOf cs v child hc
                  refine PredictSpec.step a cs v child _ hv hc ?_
                  apply ih child _ attrs default
                  have : sizeOf (DTree.node a cs) = 1 + sizeOf a + sizeOf cs := by
                    simp
                  omega

theorem si_foldl_nonneg (ex : List Example) :
    ∀ (l : List (Value × List Example)) (c : ℝ),
      (∀ p ∈ l, p.2.length ≤ ex.length) → 0 ≤ c →
      0 ≤ l.foldl (fun si p =>
        let q : ℝ := (p.2.length : ℝ) / (ex.length : ℝ)
        if 0 < q then si - q * Real.logb 2 q else si) c := by
  intro l
  induction l with
  | nil => intro c _ hc; exact hc
  | cons p ps ih =>
      intro c hle hc
      simp only [List.foldl_cons]
      refine ih _ (fun r hr => hle r (by simp [hr])) ?_
      show 0 ≤ if 0 < (p.2.length : ℝ) / (ex.length : ℝ) then
        c - ((p.2.length : ℝ) / (ex.length : ℝ)) *
          Real.logb 2 ((p.2.length : ℝ) / (ex.length : ℝ)) else c
      by_cases h0 : 0 < (p.2.length : ℝ) / (ex.length : ℝ)
      · rw [if_pos h0]
        have hexne : (ex.length : ℝ) ≠ 0 := by
          intro hz
          rw [hz] at h0
          simp at h0
        have hq1 : (p.2.length : ℝ) / (ex.length : ℝ) ≤ 1 := by
          apply div_le_one_of_le
          · exact_mod_cast hle p (by simp)
          · positivity
        have hlog : Real.logb 2 ((p.2.length : ℝ) / (ex.length : ℝ)) ≤ 0 :=
          Real.logb_nonpos (by norm_num) (le_of_lt h0) hq1
        have h2 : 0 ≤ ((p.2.length : ℝ) / (ex.length : ℝ)) *
            (-(Real.logb 2 ((p.2.length : ℝ) / (ex.length : ℝ)))) :=
          mul_nonneg (le_of_lt h0) (neg_nonneg.2 hlog)
        nlinarith [h2]
      · rw [if_neg h0]
        exact hc

/-- Split-information is nonnegative (the spec's criteria are nonnegative). -/
theorem split_info_nonneg (ex : List Example) (a : Attr) :
    0 ≤ split_info ex a := by
  unfold split_info
  exact si_foldl_nonneg ex (split_by_attr ex a) 0
    (fun p hp => split_bucket_length_le ex a p hp) (le_refl 0)

theorem foldl_upsert_const (a : Attr) (v : Value) :
    ∀ (l : List Example) (b : List Example), (∀ e ∈ l, e.1 a = v) →
      l.foldl (fun acc e => upsert acc (e.1 a) e) [(v, b)] = [(v, b ++ l)] := by
  intro l
  induction l with
  | nil =>
      intro b _
      simp
  | cons e es ih =>
      intro b hall
      simp only [List.foldl_cons]
      rw [show upsert [(v, b)] (e.1 a) e = [(v, b ++ [e])] from by
        rw [hall e (by simp)]
        simp [upsert]]
      rw [ih (b ++ [e]) (fun x hx => hall x (by simp [hx]))]
      simp

/-- When an attribute takes a single value on a nonempty list, partitioning
produces that one bucket holding the whole list. -/
theorem split_by_attr_const (ex : List Example) (a : Attr) (v : Value)
    (hne : ex ≠ []) (hall : ∀ e ∈ ex, e.1 a = v) :
    split_by_attr ex a = [(v, ex)] := by
  cases ex with
  | nil => exact absurd rfl hne
  | cons e es =>
      unfold split_by_attr
      simp only [List.foldl_cons]
      rw [show upsert [] (e.1 a) e = [(v, [e])] from by
        rw [hall e (by simp)]
        rfl]
      rw [foldl_upsert_const a v es [e] (fun x hx => hall x (by simp [hx]))]
      simp

/-- A single observed attribute value forces zero split-information. -/
theorem split_info_const (ex : List Example) (a : Attr) (v : Value)
    (hall : ∀ e ∈ ex, e.1 a = v) : split_info ex a = 0 := by
  by_cases hne : ex = []
  · subst hne
    rfl
  · unfold split_info
    rw [split_by_attr_const ex a v hne hall]
    simp only [List.foldl_cons, List.foldl_nil]
    have hexz : (ex.length : ℝ) ≠ 0 := by
      simpa [List.length_eq_zero] using hne
    show (if 0 < (ex.length : ℝ) / (ex.length : ℝ) then
      (0 : ℝ) - ((ex.length : ℝ) / (ex.length : ℝ)) *
        Real.logb 2 ((ex.length : ℝ) / (ex.length : ℝ)) else 0) = 0
    rw [div_self hexz, if_pos one_pos, Real.logb_one]
    norm_num

/-- One example with attribute value `0` and label `0`, for the skewed
dataset below. -/
def eBig0 : Example := ((fun _ => 0), 0)

/-- One example with attribute value `1` and label `1`. -/
def eBig1 : Example := ((fun _ => 1), 1)

/-- A dataset of `2^60` examples: one `(value 0, label 0)` example and
`2^60 - 1` copies of `(value 1, label 1)`.  Its split-information for
attribute `0` is positive yet far below `1e-12`. -/
def exBig : List Example := eBig0 :: List.replicate (2 ^ 60 - 1) eBig1

theorem split_big_aux (j : ℕ) :
    (List.replicate (j + 1) eBig1).foldl (fun acc e => upsert acc (e.1 0) e)
      [(0, [eBig0])] = [(0, [eBig0]), (1, List.replicate (j + 1) eBig1)] := by
  induction j with
  | zero => rfl
  | succ j ih =>
      rw [List.replicate_succ' (j + 1) eBig1, List.foldl_append, ih]
      have hstep : (fun acc e => upsert acc (e.1 0) e)
          [(0, [eBig0]), (1, List.replicate (j + 1) eBig1)] eBig1 =
          [(0, [eBig0]), (1, List.replicate (j + 1) eBig1 ++ [eBig1])] := rfl
      rw [List.foldl_cons, List.foldl_nil]
      exact hstep

theorem split_exBig : split_by_attr exBig 0 =
    [(0, [eBig0]), (1, List.replicate (2 ^ 60 - 1) eBig1)] := by
  unfold exBig split_by_attr
  rw [List.foldl_cons]
  have h0 : upsert [] (eBig0.1 0) eBig0 = [(0, [eBig0])] := rfl
  rw [h0]
  have h1 : (2 : ℕ) ^ 60 - 1 = (2 ^ 60 - 2) + 1 := by norm_num
  rw [h1, split_big_aux (2 ^ 60 - 2), ← h1]

theorem cv_big_aux (j : ℕ) :
    countValues ((0 : ℕ) :: List.replicate (j + 1) 1) = [(0, 1), (1, j + 1)] := by
  unfold countValues
  rw [List.foldl_cons]
  have h0 : bump ([] : List (ℕ × ℕ)) 0 = [(0, 1)] := rfl
  rw [h0]
  induction j with
  | zero => rfl
  | succ j ih =>
      rw [List.replicate_succ' (j + 1) 1, List.foldl_append, ih]
      rfl

theorem labels_exBig : exBig.map Prod.snd =
    (0 : ℕ) :: List.replicate (2 ^ 60 - 1) 1 := by
  unfold exBig
  rw [List.map_cons, List.map_replicate]
  rfl

theorem cv_exBig : countValues (exBig.map Prod.snd) =
    [(0, 1), (1, 2 ^ 60 - 1)] := by
  rw [labels_exBig]
  have h1 : (2 : ℕ) ^ 60 - 1 = (2 ^ 60 - 2) + 1 := by norm_num
  rw [h1, cv_big_aux (2 ^ 60 - 2), ← h1]

/-- Entropy of a constant label list is zero. -/
theorem entropyG_const (l : Label) (n : ℕ) (hn : n ≠ 0) :
    entropyG (List.replicate n l) = 0 := by
  unfold entropyG
  rw [if_neg (by simp [hn])]
  rw [countValues_const l (List.replicate n l) (by simp [hn])
    (fun y hy => List.eq_of_mem_replicate hy)]
  simp only [List.foldl_cons, List.foldl_nil, List.length_replicate]
  have hz : ((n : ℕ) : ℝ) ≠ 0 := Nat.cast_ne_zero.2 hn
  show (if 0 < (n : ℝ) / (n : ℝ) then
    (0 : ℝ) - ((n : ℝ) / (n : ℝ)) * Real.logb 2 ((n : ℝ) / (n : ℝ)) else 0) = 0
  rw [div_self hz, if_pos one_pos, Real.logb_one]
  norm_num

theorem entropyG_single (l : Label) : entropyG [l] = 0 := by
  have h := entropyG_const l 1 (by norm_num)
  simpa using h

theorem entropyG_exBig : entropyG (exBig.map Prod.snd) =
    (0 : ℝ) - 1 / 2 ^ 60 * Real.logb 2 (1 / 2 ^ 60) -
      (2 ^ 60 - 1) / 2 ^ 60 * Real.logb 2 ((2 ^ 60 - 1) / 2 ^ 60) := by
  have hcv := cv_exBig
  rw [labels_exBig] at hcv
  unfold entropyG
  rw [labels_exBig]
  rw [if_neg (List.cons_ne_nil _ _), hcv]
  rw [List.length_cons, List.length_replicate]
  have hNat : (2 : ℕ) ^ 60 - 1 + 1 = 2 ^ 60 := by norm_num
  rw [hNat]
  simp only [List.foldl_cons, List.foldl_nil]
  rw [if_pos (by norm_num : (0 : ℝ) < ((1 : ℕ) : ℝ) / (((2 : ℕ) ^ 60 : ℕ) : ℝ))]
  rw [if_pos (div_pos (by exact_mod_cast (by norm_num : (0 : ℕ) < 2 ^ 60 - 1))
    (by exact_mod_cast (by norm_num : (0 : ℕ) < 2 ^ 60)))]
  rw [Nat.cast_sub (by norm_num : (1 : ℕ) ≤ 2 ^ 60)]
  push_cast
  ring_nf

theorem split_info_exBig : split_info exBig 0 =
    (0 : ℝ) - 1 / 2 ^ 60 * Real.logb 2 (1 / 2 ^ 60) -
      (2 ^ 60 - 1) / 2 ^ 60 * Real.logb 2 ((2 ^ 60 - 1) / 2 ^ 60) := by
  have hlen : exBig.length = 2 ^ 60 := by
    unfold exBig
    rw [List.length_cons, List.length_replicate]
    norm_num
  unfold split_info
  rw [split_exBig, hlen]
  simp only [List.foldl_cons, List.foldl_nil]
  rw [List.length_replicate]
  rw [if_pos (by norm_num : (0 : ℝ) <
    (([eBig0] : List Example).length : ℝ) / (((2 : ℕ) ^ 60 : ℕ) : ℝ))]
  rw [if_pos (div_pos (by exact_mod_cast (by norm_num : (0 : ℕ) < 2 ^ 60 - 1))
    (by exact_mod_cast (by norm_num : (0 : ℕ) < 2 ^ 60)))]
  rw [Nat.cast_sub (by norm_num : (1 : ℕ) ≤ 2 ^ 60)]
  rw [show (([eBig0] : List Example).length : ℝ) = 1 from by norm_num]
  push_cast
  ring_nf

/-- On the skewed dataset the attribute split mirrors the label split, so
information gain equals split-information exactly. -/
theorem ig_exBig : information_gainG exBig 0 = split_info exBig 0 := by
  unfold information_gainG
  rw [split_exBig]
  simp only [List.foldl_cons, List.foldl_nil]
  rw [show (([eBig0] : List Example).map Prod.snd) = [(0 : ℕ)] from rfl]
  rw [show ((List.replicate (2 ^ 60 - 1) eBig1).map Prod.snd) =
      List.replicate (2 ^ 60 - 1) (1 : ℕ) from by
    rw [List.map_replicate]
    rfl]
  rw [entropyG_single, entropyG_const 1 (2 ^ 60 - 1) (by norm_num)]
  rw [mul_zero, mul_zero, add_zero, add_zero, sub_zero]
  rw [entropyG_exBig, split_info_exBig]

theorem si_exBig_logA : Real.logb 2 (1 / 2 ^ 60 : ℝ) = -60 := by
  rw [one_div, Real.logb_inv, Real.logb_pow, Real.logb_self_eq_one (by norm_num)]
  norm_num

theorem si_exBig_pos : 0 < split_info exBig 0 := by
  rw [split_info_exBig, si_exBig_logA]
  have h1 : (0 : ℝ) < ((2 : ℝ) ^ 60 - 1) / 2 ^ 60 := by norm_num
  have h2 : ((2 : ℝ) ^ 60 - 1) / 2 ^ 60 ≤ 1 := by
    rw [div_le_one (by norm_num)]
    norm_num
  have h3 := Real.logb_nonpos (b := 2) (by norm_num) (le_of_lt h1) h2
  nlinarith [mul_nonneg (le_of_lt h1) (neg_nonneg.2 h3)]

theorem si_exBig_le : split_info exBig 0 ≤ 1e-12 := by
  rw [split_info_exBig, si_exBig_logA]
  have hN1 : (0 : ℝ) < (2 : ℝ) ^ 60 - 1 := by norm_num
  have hLW : Real.logb 2 (((2 : ℝ) ^ 60 - 1) / 2 ^ 60) =
      -(Real.log ((2 : ℝ) ^ 60 / ((2 : ℝ) ^ 60 - 1)) / Real.log 2) := by
    rw [show Real.logb 2 (((2 : ℝ) ^ 60 - 1) / 2 ^ 60) =
        Real.log (((2 : ℝ) ^ 60 - 1) / 2 ^ 60) / Real.log 2 from rfl]
    rw [show Real.log (((2 : ℝ) ^ 60 - 1) / 2 ^ 60) =
        -Real.log ((2 : ℝ) ^ 60 / ((2 : ℝ) ^ 60 - 1)) from by
      rw [← Real.log_inv, inv_div]]
    ring
  rw [hLW]
  have hlgpos : 0 ≤ Real.log ((2 : ℝ) ^ 60 / ((2 : ℝ) ^ 60 - 1)) := by
    apply Real.log_nonneg
    rw [le_div_iff hN1]
    norm_num
  have hbound : Real.log ((2 : ℝ) ^ 60 / ((2 : ℝ) ^ 60 - 1)) ≤
      1 / ((2 : ℝ) ^ 60 - 1) := by
    have h1 := Real.log_le_sub_one_of_pos
      (x := (2 : ℝ) ^ 60 / ((2 : ℝ) ^ 60 - 1)) (by positivity)
    have h2 : (2 : ℝ) ^ 60 / ((2 : ℝ) ^ 60 - 1) - 1 = 1 / ((2 : ℝ) ^ 60 - 1) := by
      field_simp
    linarith
  have hdiv : Real.log ((2 : ℝ) ^ 60 / ((2 : ℝ) ^ 60 - 1)) / Real.log 2 ≤
      (1 / ((2 : ℝ) ^ 60 - 1)) / 0.6931471803 :=
    div_le_div (by positivity) hbound (by norm_num)
      (le_of_lt Real.log_two_gt_d9)
  have hW1 : ((2 : ℝ) ^ 60 - 1) / 2 ^ 60 ≤ 1 := by
    rw [div_le_one (by norm_num)]
    norm_num
  have hterm : ((2 : ℝ) ^ 60 - 1) / 2 ^ 60 *
      (Real.log ((2 : ℝ) ^ 60 / ((2 : ℝ) ^ 60 - 1)) / Real.log 2) ≤
      (1 / ((2 : ℝ) ^ 60 - 1)) / 0.6931471803 := by
    have hx : 0 ≤ Real.log ((2 : ℝ) ^ 60 / ((2 : ℝ) ^ 60 - 1)) / Real.log 2 :=
      div_nonneg hlgpos (le_of_lt (Real.log_pos (by norm_num)))
    calc ((2 : ℝ) ^ 60 - 1) / 2 ^ 60 *
        (Real.log ((2 : ℝ) ^ 60 / ((2 : ℝ) ^ 60 - 1)) / Real.log 2) ≤
        Real.log ((2 : ℝ) ^ 60 / ((2 : ℝ) ^ 60 - 1)) / Real.log 2 :=
          mul_le_of_le_one_left hx hW1
      _ ≤ (1 / ((2 : ℝ) ^ 60 - 1)) / 0.6931471803 := hdiv
  have hkey : (0 : ℝ) - 1 / 2 ^ 60 * (-60) -
      ((2 : ℝ) ^ 60 - 1) / 2 ^ 60 *
        -(Real.log ((2 : ℝ) ^ 60 / ((2 : ℝ) ^ 60 - 1)) / Real.log 2) =
      60 / 2 ^ 60 + ((2 : ℝ) ^ 60 - 1) / 2 ^ 60 *
        (Real.log ((2 : ℝ) ^ 60 / ((2 : ℝ) ^ 60 - 1)) / Real.log 2) := by
    ring
  rw [hkey]
  have hnum : (60 : ℝ) / 2 ^ 60 + (1 / ((2 : ℝ) ^ 60 - 1)) / 0.6931471803 ≤
      1e-12 := by norm_num
  linarith

theorem gain_ratioG_exBig : gain_ratioG exBig 0 = 1 := by
  unfold gain_ratioG
  rw [if_neg (ne_of_gt si_exBig_pos), ig_exBig]
  exact div_self (ne_of_gt si_exBig_pos)

/-- Split case of generate_results_table.py's builder with the dead
empty-bucket branch simplified away (every bucket is nonempty). -/
theorem buildG_node_clean (ex : List Example) (attrs : List Attr) (algo : Algo)
    (b : Attr) (hp : (countValues (ex.map Prod.snd)).length ≠ 1)
    (ha : attrs ≠ []) (hb : (bestPair (scoreG algo ex) attrs).1 = some b) :
    build_treeG ex attrs algo = .node b ((split_by_attr ex b).map (fun p =>
      (p.1, build_treeG p.2 (attrs.filter (fun a => a ≠ b)) algo))) := by
  rw [buildG_node _ _ _ _ hp ha hb]
  congr 1
  apply List.map_congr_left
  intro p hpmem
  rw [if_neg (by
    simpa [List.isEmpty_iff] using split_buckets_ne_nil ex b p hpmem)]

/-- Split case of plot_id3_tree.py's builder with the dead empty-bucket
branch simplified away. -/
theorem buildP_node_clean (ex : List Example) (attrs : List Attr) (algo : Algo)
    (b : Attr) (hp : (countValues (ex.map Prod.snd)).length ≠ 1)
    (ha : ¬(attrs = [] ∨ ex.isEmpty))
    (hb : choose_best_attribute ex attrs algo = some b) :
    build_treeP ex attrs algo = .node b ((split_by_attr ex b).map (fun p =>
      (p.1, build_treeP p.2 (attrs.filter (fun a => a ≠ b)) algo))) := by
  rw [buildP_node _ _ _ _ hp ha hb]
  congr 1
  apply List.map_congr_left
  intro p hpmem
  rw [if_neg (by
    simpa [List.isEmpty_iff] using split_buckets_ne_nil ex b p hpmem)]

/-- A trivially pure one-example training set and a one-example test set used
as concrete witnesses for the evaluator claims. -/
def exTrain : List Example := [((fun _ => 0), 1)]

/-- The single test example: attribute value `0` everywhere, label `0`. -/
def exTest : List ((Attr → Option Value) × Label) := [((fun _ => some 0), 0)]

/-- A two-example pure-class dataset (both labels `5`). -/
def exPure : List Example := [((fun _ => 0), 5), ((fun _ => 1), 5)]

/-- Claim C1, counterexample.  The claim asserts that `build` (in both
scripts) falls back to a majority-label leaf whenever the best criterion
score is at most `1e-9`.  On the dataset `exC` (two examples with two
distinct labels but identical attribute values) the only attribute's CART
score is `0 ≤ 1e-9`, yet `build_tree` of generate_results_table.py - which
has no near-zero threshold - still returns a Decision node, not a leaf. -/
theorem C1_counterexample :
    scoreG Algo.cart exC 0 ≤ 1e-9 ∧
      build_treeG exC [0] Algo.cart = .node 0 [(0, .leaf (some 0))] ∧
      build_treeG exC [0] Algo.cart ≠ .leaf (majority_labelG exC) := by
  refine ⟨?_, buildG_exC, ?_⟩
  · rw [show scoreG Algo.cart exC 0 = gini_gainG exC 0 from rfl, gini_gainG_exC]
    norm_num
  · intro h
    rw [buildG_exC] at h
    cases h

/-- Claim C1 (amended).  On a nonempty example list with at least two
distinct labels and a nonempty attribute list there is a first-encountered
attribute `m` of strictly greatest plot_id3_tree.py score (every attribute
scores at most `m`'s score and every earlier one strictly less);
plot_id3_tree.py's builder returns a majority-label leaf when that best
score is at most `1e-9` and otherwise splits on `m`; and
generate_results_table.py's builder performs the same selection but has no
near-zero threshold: it splits on its first-encountered argmax whenever
that score beats the `-1.0` sentinel, even when the score is `≤ 1e-9`. -/
theorem C1_amended_selection (ex : List Example) (attrs : List Attr)
    (algo : Algo) (hne : ex ≠ [])
    (hlab : 2 ≤ (countValues (ex.map Prod.snd)).length) (hattrs : attrs ≠ []) :
    ∃ m, FirstArgmax (scoreP algo ex) attrs m ∧
      (scoreP algo ex m ≤ 1e-9 →
        build_treeP ex attrs algo = .leaf (majority_labelP ex)) ∧
      (1e-9 < scoreP algo ex m →
        build_treeP ex attrs algo = .node m ((split_by_attr ex m).map (fun p =>
          (p.1, build_treeP p.2 (attrs.filter (fun a => a ≠ m)) algo)))) ∧
      ∀ m2, FirstArgmax (scoreG algo ex) attrs m2 → -1 < scoreG algo ex m2 →
        build_treeG ex attrs algo =
          .node m2 ((split_by_attr ex m2).map (fun p =>
            (p.1, build_treeG p.2 (attrs.filter (fun a => a ≠ m2)) algo))) := by
  have hp : (countValues (ex.map Prod.snd)).length ≠ 1 := by omega
  have haP : ¬(attrs = [] ∨ ex.isEmpty) := by
    rintro (h | h)
    · exact hattrs h
    · exact hne (List.isEmpty_iff.1 h)
  obtain ⟨m, hm⟩ := exists_firstArgmax (scoreP algo ex) attrs hattrs
  refine ⟨m, hm, ?_, ?_, ?_⟩
  · intro hle
    cases hb : (bestPair (scoreP algo ex) attrs).1 with
    | none =>
        apply buildP_none _ _ _ hp haP
        unfold choose_best_attribute
        rw [hb]
    | some b =>
        have hval := bestPair_snd_of_fst _ _ _ hb
        have hmem := bestPair_fst_mem _ _ _ hb
        obtain ⟨l1, l2, hsp, hall, hlt⟩ := hm
        have hble : scoreP algo ex b ≤ scoreP algo ex m := hall b hmem
        apply buildP_none _ _ _ hp haP
        unfold choose_best_attribute
        rw [hb]
        show (if (bestPair (scoreP algo ex) attrs).2 ≤ 1e-9 then
          (none : Option Attr) else some b) = none
        rw [if_pos (by rw [hval]; linarith)]
  · intro hgt
    have hbp : bestPair (scoreP algo ex) attrs = (some m, scoreP algo ex m) :=
      bestPair_firstArgmax _ _ _ hm (lt_trans (by norm_num) hgt)
    have hcb : choose_best_attribute ex attrs algo = some m := by
      unfold choose_best_attribute
      rw [hbp]
      show (if scoreP algo ex m ≤ 1e-9 then (none : Option Attr) else some m) =
        some m
      rw [if_neg (not_le.2 hgt)]
    exact buildP_node_clean _ _ _ _ hp haP hcb
  · intro m2 hm2 hgt2
    have hbp2 : bestPair (scoreG algo ex) attrs = (some m2, scoreG algo ex m2) :=
      bestPair_firstArgmax _ _ _ hm2 hgt2
    exact buildG_node_clean _ _ _ _ hp hattrs (by rw [hbp2])

/-- Claim C1 (amended), witness at the dataset `exW`, criterion CART. -/
theorem C1_amended_selection_witness :
    exW ≠ [] ∧ 2 ≤ (countValues (exW.map Prod.snd)).length ∧
      ([0] : List Attr) ≠ [] ∧
      ∃ m, FirstArgmax (scoreP Algo.cart exW) [0] m ∧
        (scoreP Algo.cart exW m ≤ 1e-9 →
          build_treeP exW [0] Algo.cart = .leaf (majority_labelP exW)) ∧
        (1e-9 < scoreP Algo.cart exW m →
          build_treeP exW [0] Algo.cart =
            .node m ((split_by_attr exW m).map (fun p =>
              (p.1, build_treeP p.2 (([0] : List Attr).filter
                (fun a => a ≠ m)) Algo.cart)))) ∧
        ∀ m2, FirstArgmax (scoreG Algo.cart exW) [0] m2 →
          -1 < scoreG Algo.cart exW m2 →
          build_treeG exW [0] Algo.cart =
            .node m2 ((split_by_attr exW m2).map (fun p =>
              (p.1, build_treeG p.2 (([0] : List Attr).filter
                (fun a => a ≠ m2)) Algo.cart))) :=
  ⟨by simp [exW], by decide, by simp,
    C1_amended_selection exW [0] Algo.cart (by simp [exW]) (by decide) (by simp)⟩

/-- Claim C2, counterexample.  The claim asserts the two scripts' tree
builders are behaviourally equivalent on every dataset and criterion.  On
`exC` with CART, generate_results_table.py splits (returning a Decision
node) while plot_id3_tree.py's near-zero threshold yields a majority leaf:
the trees differ structurally. -/
theorem C2_counterexample :
    build_treeG exC [0] Algo.cart ≠ build_treeP exC [0] Algo.cart ∧
      build_treeG exC [0] Algo.cart = .node 0 [(0, .leaf (some 0))] ∧
      build_treeP exC [0] Algo.cart = .leaf (some 0) := by
  refine ⟨?_, buildG_exC, buildP_exC⟩
  rw [buildG_exC, buildP_exC]
  exact fun h => DTree.noConfusion h

/-- Claim C2 (amended).  On every nonempty dataset, the two scripts' tree
builders produce structurally identical trees provided that, at every node
reached during construction, the two scripts assign equal criterion scores
to each available attribute and the selected best score strictly exceeds
the `1e-9` threshold (the recursive side condition `okRec`); without that
condition they can differ, as the counterexample shows. -/
theorem C2_amended_equivalence (ex : List Example) (attrs : List Attr)
    (algo : Algo) (hne : ex ≠ []) (hok : okRec ex attrs algo) :
    build_treeG ex attrs algo = build_treeP ex attrs algo :=
  build_equiv_aux (attrs.length + 1) ex attrs algo (by omega) hne hok

/-- Claim C2 (amended), witness at the dataset `exW`, criterion CART. -/
theorem C2_amended_equivalence_witness :
    exW ≠ [] ∧ okRec exW [0] Algo.cart ∧
      build_treeG exW [0] Algo.cart = build_treeP exW [0] Algo.cart :=
  ⟨by simp [exW], okRec_exW,
    C2_amended_equivalence exW [0] Algo.cart (by simp [exW]) okRec_exW⟩

/-- Claim C3, counterexample.  The claim asserts `gainRatio` returns exactly
`0` whenever split-information is at most `1e-12`, citing both scripts.  In
generate_results_table.py the guard is `si == 0`, not `si <= 1e-12`: on the
`2^60`-example dataset `exBig` the split-information is positive yet at most
`1e-12`, and that script's `gain_ratio` returns `1`, not `0`. -/
theorem C3_counterexample :
    split_info exBig 0 ≤ 1e-12 ∧ split_info exBig 0 ≠ 0 ∧
      gain_ratioG exBig 0 = 1 :=
  ⟨si_exBig_le, ne_of_gt si_exBig_pos, gain_ratioG_exBig⟩

/-- Claim C3 (amended).  Split-information is always nonnegative; neither
script ever divides by zero: plot_id3_tree.py's `gain_ratio` returns `0`
whenever split-information is at most `1e-12`, generate_results_table.py's
returns `0` exactly when split-information equals `0` and the quotient
`IG/SI` otherwise; and both return `0` whenever the attribute has a single
observed value in the example list. -/
theorem C3_amended_gain_ratio (ex : List Example) (a : Attr) :
    0 ≤ split_info ex a ∧
      (split_info ex a ≤ 1e-12 → gain_ratioP ex a = 0) ∧
      (split_info ex a ≠ 0 →
        gain_ratioG ex a = information_gainG ex a / split_info ex a) ∧
      ∀ v, (∀ e ∈ ex, e.1 a = v) →
        gain_ratioG ex a = 0 ∧ gain_ratioP ex a = 0 := by
  refine ⟨split_info_nonneg ex a, ?_, ?_, ?_⟩
  · intro h
    unfold gain_ratioP
    rw [if_pos h]
  · intro h
    unfold gain_ratioG
    rw [if_neg h]
  · intro v hall
    have hsi := split_info_const ex a v hall
    constructor
    · unfold gain_ratioG
      rw [if_pos hsi]
    · unfold gain_ratioP
      rw [if_pos (by rw [hsi]; norm_num)]

/-- Claim C3 (amended), witness: on `exC` attribute `0` has the single
observed value `0`, so both scripts' gain ratios are `0`. -/
theorem C3_amended_gain_ratio_witness :
    (∀ e ∈ exC, e.1 0 = 0) ∧ gain_ratioG exC 0 = 0 ∧ gain_ratioP exC 0 = 0 := by
  have hall : ∀ e ∈ exC, e.1 0 = 0 := by
    intro e he
    rcases List.mem_cons.1 he with h | h
    · subst h
      rfl
    · rcases List.mem_cons.1 h with h2 | h2
      · subst h2
        rfl
      · cases h2
  exact ⟨hall, ((C3_amended_gain_ratio exC 0).2.2.2 0 hall).1,
    ((C3_amended_gain_ratio exC 0).2.2.2 0 hall).2⟩

/-- Claim C4.  On a nonempty example list whose examples all carry the same
label, both scripts' builders return a leaf with that label, for every
attribute list and every criterion - the result does not depend on the
criterion at all, reflecting that the pure-class check precedes any
attribute scoring. -/
theorem C4_pure_class_leaf (ex : List Example) (attrs : List Attr)
    (algo : Algo) (l : Label) (hne : ex ≠ []) (hall : ∀ e ∈ ex, e.2 = l) :
    build_treeG ex attrs algo = .leaf (some l) ∧
      build_treeP ex attrs algo = .leaf (some l) := by
  have hcv : countValues (ex.map Prod.snd) = [(l, ex.length)] := by
    have h := countValues_const l (ex.map Prod.snd)
      (by simpa using hne)
      (by
        intro y hy
        rcases List.mem_map.1 hy with ⟨e, he, heq⟩
        rw [← heq]
        exact hall e he)
    simpa [List.length_map] using h
  have hp : (countValues (ex.map Prod.snd)).length = 1 := by
    rw [hcv]
    rfl
  constructor
  · rw [buildG_pure _ _ _ hp]
    congr 1
    cases ex with
    | nil => exact absurd rfl hne
    | cons e es =>
        rw [List.map_cons]
        rw [hall e (by simp)]
        rfl
  · rw [buildP_pure _ _ _ hp, hcv]
    rfl

/-- Claim C4, witness at the pure two-example dataset `exPure`. -/
theorem C4_pure_class_leaf_witness :
    exPure ≠ [] ∧ (∀ e ∈ exPure, e.2 = 5) ∧
      build_treeG exPure [0, 1] Algo.id3 = .leaf (some 5) ∧
      build_treeP exPure [0, 1] Algo.id3 = .leaf (some 5) := by
  have hall : ∀ e ∈ exPure, e.2 = 5 := by
    intro e he
    rcases List.mem_cons.1 he with h | h
    · subst h
      rfl
    · rcases List.mem_cons.1 h with h2 | h2
      · subst h2
        rfl
      · cases h2
  exact ⟨by simp [exPure], hall,
    C4_pure_class_leaf exPure [0, 1] Algo.id3 5 (by simp [exPure]) hall⟩

/-- Claim C5.  `split_by_attr` partitions its input exactly: the bucket keys
are distinct, every stored example carries its bucket's key as its value for
the split attribute, the buckets' concatenation is a permutation of the
input (so no example is lost or duplicated), the bucket sizes sum to the
input length, an example cannot lie in two distinct buckets, and an empty
input yields the empty mapping. -/
theorem C5_partition_exact (ex : List Example) (a : Attr) :
    ((split_by_attr ex a).map Prod.fst).Nodup ∧
      (∀ q ∈ split_by_attr ex a, ∀ e ∈ q.2, e.1 a = q.1) ∧
      (((split_by_attr ex a).map Prod.snd).flatten).Perm ex ∧
      ((split_by_attr ex a).map (fun q => q.2.length)).sum = ex.length ∧
      (∀ q r, q ∈ split_by_attr ex a → r ∈ split_by_attr ex a →
        ∀ e, e ∈ q.2 → e ∈ r.2 → q = r) ∧
      (ex = [] → split_by_attr ex a = []) := by
  refine ⟨split_keys_nodup ex a, split_buckets_val ex a, split_join_perm ex a,
    split_length_sum ex a, ?_, ?_⟩
  · intro q r hq hr e heq her
    have h1 : q.1 = r.1 := by
      rw [← split_buckets_val ex a q hq e heq, ← split_buckets_val ex a r hr e her]
    exact keyed_nodup_eq _ (split_keys_nodup ex a) q r hq hr h1
  · intro h
    subst h
    rfl

/-- Claim C5, witness: the first bucket of the partition of `exW` by
attribute `0`. -/
theorem C5_partition_exact_witness :
    ((0 : Value), [(((fun _ => 0) : Attr → Value), (0 : Label))]) ∈
      split_by_attr exW 0 ∧
      ∀ e ∈ ([((fun _ => (0 : Value)), (0 : Label))] : List Example),
        e.1 0 = 0 := by
  have hmem : ((0 : Value), [(((fun _ => 0) : Attr → Value), (0 : Label))]) ∈
      split_by_attr exW 0 := by
    rw [show split_by_attr exW 0 =
      [(0, [((fun _ => 0), 0)]), (1, [((fun _ => 1), 1)])] from rfl]
    exact List.mem_cons_self _ _
  exact ⟨hmem, (C5_partition_exact exW 0).2.1 _ hmem⟩

/-- Claim C6, counterexample.  The claim asserts that on an empty test set
`evaluate` returns zeros "without building the tree or attempting timing";
in the source the tree is built and timed before the empty-test check, and
the measured elapsed span (modelled by the `elapsed` parameter) is returned
unchanged: with an empty test set and a measured span of `7` the result is
`(0, 0, 7, 0)` - the timing result is produced and returned, not skipped. -/
theorem C6_counterexample :
    evaluate_algorithmG exC [] [0] Algo.cart 1 7 = (0, 0, 7, 0) ∧
      (7 : ℝ) ≠ 0 := by
  constructor
  · rfl
  · norm_num

/-- Claim C6 (amended).  On an empty test set `evaluate_algorithm` returns
zero accuracy, zero F1 and a zero node count, but the tree is still built
and timed first: the measured elapsed time is returned unchanged in the
third component. -/
theorem C6_amended_empty_test (train : List Example) (attrs : List Attr)
    (algo : Algo) (positive : Label) (elapsed : ℝ) :
    evaluate_algorithmG train [] attrs algo positive elapsed =
      (0, 0, elapsed, 0) := rfl

/-- Claim C7.  Whenever the designated positive label has zero true
positives and a positive count of false positives or false negatives, the
F1 returned by `evaluate_algorithm` is exactly `0`: the explicit zero rule
fires before any division is attempted. -/
theorem C7_f1_zero_rule (train : List Example)
    (test : List ((Attr → Option Value) × Label)) (attrs : List Attr)
    (algo : Algo) (positive : Label) (elapsed : ℝ)
    (htp : tpOf (predsG (build_treeG train attrs algo) (majority_labelG train)
      test) positive = 0)
    (hfpfn : 0 < fpOf (predsG (build_treeG train attrs algo)
        (majority_labelG train) test) positive ∨
      0 < fnOf (predsG (build_treeG train attrs algo)
        (majority_labelG train) test) positive) :
    (evaluate_algorithmG train test attrs algo positive elapsed).2.1 = 0 := by
  have hts : test ≠ [] := by
    intro h
    subst h
    rcases hfpfn with h1 | h1 <;> simp [fpOf, fnOf, predsG] at h1
  unfold evaluate_algorithmG
  rw [if_neg (by simpa [List.isEmpty_iff] using hts)]
  show f1Of (predsG (build_treeG train attrs algo) (majority_labelG train) test)
    positive = 0
  unfold f1Of
  rw [if_pos ⟨htp, hfpfn⟩]

theorem build_exTrain : build_treeG exTrain [0] Algo.cart = .leaf (some 1) := by
  rw [buildG_pure _ _ _ (by decide)]
  rfl

theorem preds_exTest :
    predsG (build_treeG exTrain [0] Algo.cart) (majority_labelG exTrain)
      exTest = [(0, some 1)] := by
  rw [build_exTrain]
  unfold predsG exTest
  rw [List.map_cons, List.map_nil]
  rw [predict_one_leaf]

/-- Claim C7, witness: the pure training set `exTrain` predicts `1` on the
test example labelled `0` with positive label `1`, giving zero true
positives and one false positive, hence F1 exactly `0`. -/
theorem C7_f1_zero_rule_witness :
    (tpOf (predsG (build_treeG exTrain [0] Algo.cart)
        (majority_labelG exTrain) exTest) 1 = 0 ∧
      0 < fpOf (predsG (build_treeG exTrain [0] Algo.cart)
        (majority_labelG exTrain) exTest) 1) ∧
      (evaluate_algorithmG exTrain exTest [0] Algo.cart 1 3).2.1 = 0 := by
  have hy := preds_exTest
  refine ⟨⟨by rw [hy]; decide, by rw [hy]; decide⟩, ?_⟩
  exact C7_f1_zero_rule exTrain exTest [0] Algo.cart 1 3
    (by rw [hy]; decide) (Or.inl (by rw [hy]; decide))

/-- Claim C8.  For every tree, example attribute lookup and default label,
`predict_one` terminates (it is a total function on the inductive tree type)
and its result satisfies the spec's path relation: it is the label of the
leaf reached by following the branches matching the example's attribute
values, or the caller's default, returned at the first decision node whose
children map has no entry for the example's value for that node's attribute
- including when the example has no value for that attribute at all - with
no further traversal. -/
theorem C8_predict_follows_spec (t : DTree) (attrs : Attr → Option Value)
    (default : Option Label) :
    PredictSpec attrs default t (predict_one t attrs default) :=
  predict_spec_aux (sizeOf t + 1) t (by omega) attrs default

/-- Claim C9.  Both builders terminate on every input (they are total
functions), and the resulting tree's depth is bounded by the number of
available attributes: each recursive level removes the selected attribute
from the available set, so nesting cannot exceed the attribute count. -/
theorem C9_depth_bound (ex : List Example) (attrs : List Attr) (algo : Algo) :
    depthT (build_treeG ex attrs algo) ≤ attrs.length ∧
      depthT (build_treeP ex attrs algo) ≤ attrs.length :=
  ⟨depthG_aux (attrs.length + 1) ex attrs algo (by omega),
    depthP_aux (attrs.length + 1) ex attrs algo (by omega)⟩

/-- Claim C10.  Partitioning a list of examples never produces an empty
bucket (buckets are created only when an example is inserted), so each
script's builder is extensionally equal to its variant with the
empty-bucket fallback branch deleted: the fallback that would return a
majority-label leaf over the parent's examples is unreachable. -/
theorem C10_fallback_unreachable :
    (∀ (ex : List Example) (a : Attr) (q : Value × List Example),
      q ∈ split_by_attr ex a → q.2 ≠ []) ∧
      (∀ (ex : List Example) (attrs : List Attr) (algo : Algo),
        build_treeG ex attrs algo = build_treeG_nofallback ex attrs algo) ∧
      (∀ (ex : List Example) (attrs : List Attr) (algo : Algo),
        build_treeP ex attrs algo = build_treeP_nofallback ex attrs algo) :=
  ⟨fun ex a q hq => split_buckets_ne_nil ex a q hq,
    fun ex attrs algo =>
      buildG_nofallback_aux (attrs.length + 1) ex attrs algo (by omega),
    fun ex attrs algo =>
      buildP_nofallback_aux (attrs.length + 1) ex attrs algo (by omega)⟩

/-- Claim C10, witness: the second bucket of the partition of `exW` by
attribute `0` is nonempty. -/
theorem C10_fallback_unreachable_witness :
    ((1 : Value), [(((fun _ => 1) : Attr → Value), (1 : Label))]) ∈
      split_by_attr exW 0 ∧
      ([(((fun _ => 1) : Attr → Value), (1 : Label))] : List Example) ≠ [] := by
  have hmem : ((1 : Value), [(((fun _ => 1) : Attr → Value), (1 : Label))]) ∈
      split_by_attr exW 0 := by
    rw [show split_by_attr exW 0 =
      [(0, [((fun _ => 0), 0)]), (1, [((fun _ => 1), 1)])] from rfl]
    exact List.mem_cons_of_mem _ (List.mem_cons_self _ _)
  exact ⟨hmem, C10_fallback_unreachable.1 exW 0 _ hmem⟩
